import Mathlib

/-!
# Verification development for `redien/raytracer` (`src/source/main.cpp`)

A shallow embedding of the raytracing engine and of the row scheduler.

* `size_t` values are natural numbers reduced modulo `2 ^ 64` after every
  arithmetic operation, `int` values are integers reduced to the 32-bit
  two's-complement range.
* `float` computations are carried out over an ordered field `F`; the square
  root and the power function of `glm` are passed in as a `Glm F` record, so
  that the definitions stay executable over `ℚ`; the theorems over the reals
  take `Real.sqrt` for the square root.
* An out-parameter (`glm::vec3& intersection`, `glm::vec3& color`) becomes an
  argument together with a component of the result.
-/

namespace Raytracer

/-! ## Machine integers -/

/-- Number of values of a `size_t`. -/
def SIZE_MOD : Nat := 2 ^ 64

/-- Addition of two `size_t` values. -/
def sizeAdd (a b : Nat) : Nat := (a + b) % SIZE_MOD

/-- Subtraction of two `size_t` values (wraps around below zero). -/
def sizeSub (a b : Nat) : Nat := (a + (SIZE_MOD - b % SIZE_MOD)) % SIZE_MOD

/-- Multiplication of two `size_t` values. -/
def sizeMul (a b : Nat) : Nat := (a * b) % SIZE_MOD

/-- Conversion of an `int` to `size_t`. -/
def intToSize (z : Int) : Nat := (z % (2 ^ 64 : Int)).toNat

/-! ## Vectors (`glm::vec3`) -/

/-- A `glm::vec3` over the scalar type `F`. -/
structure Vec3 (F : Type) where
  x : F
  y : F
  z : F
deriving DecidableEq, Repr

/-- The `Job` record handed to a worker. -/
structure Job (F : Type) where
  y_start : Nat
  y_count : Nat
  max_depth : Nat
  camera_position : Vec3 F

/-- The scheduler-visible part of one `Raytracer` object (one worker).
`uid` is a ghost field: the allocation number of the object. -/
structure Worker (F : Type) where
  uid : Nat
  current_job : Job F
  job_done : Bool
  running : Bool
  texture_width : Nat
  texture_height : Nat

/-- The constructor `Raytracer(texture_data, texture_width, texture_height)`:
`job_done(true), running(true)`; `current_job` is not initialised by the
constructor, `junk` stands for whatever it holds. -/
def Worker.new {F : Type} (uid : Nat) (junk : Job F) (w h : Nat) : Worker F :=
  { uid := uid, current_job := junk, job_done := true, running := true,
    texture_width := w, texture_height := h }

/-- Method `Raytracer::setJob`. -/
def Worker.setJob {F : Type} (w : Worker F) (new_job : Job F) : Worker F :=
  { w with current_job := new_job, job_done := false }

/-- Method `Raytracer::jobDone`. -/
def Worker.jobDone {F : Type} (w : Worker F) : Bool := w.job_done

/-- Method `Raytracer::stop`. -/
def Worker.stop {F : Type} (w : Worker F) : Worker F :=
  { w with running := false }

/-- The fields of `Application` used by the scheduler.  `width` and `height`
are what `window.getWidth()` and `window.getHeight()` return, `next_uid` is a
ghost allocation counter and `junk_job` the content of a freshly constructed
worker's `current_job`. -/
structure Application (F : Type) where
  selection : Int
  threads : Nat
  max_depth : Int
  camera_position : Vec3 F
  workers : List (Worker F)
  worker_threads : List Nat
  keys : Int → Bool
  width : Nat
  height : Nat
  next_uid : Nat
  junk_job : Job F

/-- The call `workers[i]->setJob(job)`; indexing past the end of the vector
is an error. -/
def setJobAt {F : Type} (ws : List (Worker F)) (i : Nat) (job : Job F) :
    Option (List (Worker F)) :=
  match ws[i]? with
  | none => none
  | some w => some (ws.set i (w.setJob job))

/-- The `for` loop of `Application::assignJobs`: `n` iterations remain, the
loop variable is `i`, `lines_assigned` is the running total. -/
def assignJobsLoop {F : Type} (max_lines threads step : Nat) (max_depth : Int)
    (camera_position : Vec3 F) :
    Nat → Nat → Nat → List (Worker F) → Option (List (Worker F))
  | 0, _, _, ws => some ws
  | n + 1, i, lines_assigned, ws =>
    let job : Job F :=
      { y_start := lines_assigned
        y_count := if i < sizeSub threads 1 then step
                   else sizeSub max_lines lines_assigned
        max_depth := intToSize max_depth
        camera_position := camera_position }
    match setJobAt ws i job with
    | none => none
    | some ws' =>
      assignJobsLoop max_lines threads step max_depth camera_position
        n (sizeAdd i 1) (sizeAdd lines_assigned step) ws'

/-- Method `Application::assignJobs`.  The result is `none` when the division
`max_lines / threads` has a zero divisor or a worker index is out of range. -/
def assignJobs {F : Type} (app : Application F) : Option (Application F) :=
  if app.threads = 0 then none
  else
    let max_lines := app.height
    let step := max_lines / app.threads
    match assignJobsLoop max_lines app.threads step app.max_depth
        app.camera_position app.threads 0 0 app.workers with
    | none => none
    | some ws => some { app with workers := ws }

/-- The job the scheduler intends for worker `i` of `T`, image height `H`. -/
def jobOf {F : Type} (H T : Nat) (max_depth : Int) (camera_position : Vec3 F)
    (i : Nat) : Job F :=
  { y_start := i * (H / T)
    y_count := if i < T - 1 then H / T else H - (T - 1) * (H / T)
    max_depth := intToSize max_depth
    camera_position := camera_position }

/-- Row `y` belongs to the range `[y_start, y_start + y_count)` of a job. -/
def Job.hasRow {F : Type} (j : Job F) (y : Nat) : Prop :=
  j.y_start ≤ y ∧ y < j.y_start + j.y_count

/-- The function `glm::clamp(x, lo, hi) = min(max(x, lo), hi)`. -/
def clamp {F : Type} [LinearOrderedField F] (x lo hi : F) : F :=
  min (max x lo) hi

/-- The conversion `(unsigned char)(glm::clamp(c, 0.0f, 1.0f) * 255.0)`. -/
def toByte {F : Type} [LinearOrderedField F] [FloorRing F] (c : F) : Nat :=
  ⌊clamp c 0 1 * 255⌋₊ % 256

/-- The index `offset * 3 + c` computed by `WritePixel` in `size_t`
arithmetic, where `offset = y * (size_t)texture_width + x`. -/
def pixelIndex (W x y c : Nat) : Nat :=
  sizeAdd (sizeMul (sizeAdd (sizeMul y W) x) 3) c

/-- The store `texture_data[i] = v`; a store outside the buffer is an error. -/
def writeByte (texture_data : List Nat) (i v : Nat) : Option (List Nat) :=
  if i < texture_data.length then some (texture_data.set i v) else none

/-- Method `Raytracer::WritePixel`, `W` being `(size_t)texture_width`. -/
def WritePixel {F : Type} [LinearOrderedField F] [FloorRing F]
    (W : Nat) (texture_data : List Nat) (x y : Nat) (color : Vec3 F) :
    Option (List Nat) := do
  let d0 ← writeByte texture_data (pixelIndex W x y 0) (toByte color.x)
  let d1 ← writeByte d0 (pixelIndex W x y 1) (toByte color.y)
  writeByte d1 (pixelIndex W x y 2) (toByte color.z)

/-- The rows visited by the outer loop of `Raytracer::operator()`:
`for (y = y_start; y < y_start + y_count; ++y)`. -/
def jobRows {F : Type} (job : Job F) : List Nat :=
  List.range' job.y_start (sizeAdd job.y_start job.y_count - job.y_start)

/-- The two nested loops of `Raytracer::operator()` for one job; `pixel x y`
is the colour `CalculatePixel` leaves in `color` for that pixel, `none` when
the computation does not return. -/
def renderJob {F : Type} [LinearOrderedField F] [FloorRing F]
    (W : Nat) (pixel : Nat → Nat → Option (Vec3 F)) (job : Job F)
    (texture_data : List Nat) : Option (List Nat) :=
  (jobRows job).foldlM
    (fun d y => (List.range' 0 W).foldlM
      (fun d x =>
        match pixel x y with
        | none => none
        | some color => WritePixel W d x y color) d)
    texture_data

/-- Pixel `(x, y)` is visited by the worker loop for `job`. -/
def visits {F : Type} (W : Nat) (job : Job F) (x y : Nat) : Prop :=
  y ∈ jobRows job ∧ x ∈ List.range' 0 W

/-! ## `glm` operations -/

/-- The operations of `glm` that are not field operations: `glm::sqrt`,
`glm::pow`, and the value a default-constructed `glm::vec3` holds (the source
reads `glm::vec3 reflection_color;` without an initialiser). -/
structure Glm (F : Type) where
  sqrt : F → F
  pow : F → F → F
  vec3_default : Vec3 F

namespace Vec3

variable {F : Type} [LinearOrderedField F]

/-- Operator `a + b`. -/
def add (a b : Vec3 F) : Vec3 F := ⟨a.x + b.x, a.y + b.y, a.z + b.z⟩

/-- Operator `a - b`. -/
def sub (a b : Vec3 F) : Vec3 F := ⟨a.x - b.x, a.y - b.y, a.z - b.z⟩

/-- Operator `-a`. -/
def neg (a : Vec3 F) : Vec3 F := ⟨-a.x, -a.y, -a.z⟩

/-- Operator `a * b` on two vectors (componentwise). -/
def mul (a b : Vec3 F) : Vec3 F := ⟨a.x * b.x, a.y * b.y, a.z * b.z⟩

/-- Operator `v * k` with a scalar on the right. -/
def muls (v : Vec3 F) (k : F) : Vec3 F := ⟨v.x * k, v.y * k, v.z * k⟩

/-- Operator `k * v` with a scalar on the left. -/
def smul (k : F) (v : Vec3 F) : Vec3 F := ⟨k * v.x, k * v.y, k * v.z⟩

/-- Operator `v / k`. -/
def divs (v : Vec3 F) (k : F) : Vec3 F := ⟨v.x / k, v.y / k, v.z / k⟩

/-- The function `glm::dot`. -/
def dot (a b : Vec3 F) : F := a.x * b.x + a.y * b.y + a.z * b.z

/-- The function `glm::length`. -/
def length (g : Glm F) (v : Vec3 F) : F := g.sqrt (dot v v)

/-- The function `glm::normalize`: `v * inversesqrt(dot(v, v))`. -/
def normalize (g : Glm F) (v : Vec3 F) : Vec3 F :=
  muls v (1 / g.sqrt (dot v v))

end Vec3

/-! ## Scene model -/

/-- The constant `FLT_MAX`, default value of the `max_depth` parameter of
`intersectRay`. -/
def FLT_MAX {F : Type} [LinearOrderedField F] : F :=
  340282346638528859811704183484516925440

/-- Struct `PointLight`. -/
structure PointLight (F : Type) where
  position : Vec3 F
  color : Vec3 F

/-- Struct `Ray`. -/
structure Ray (F : Type) where
  position : Vec3 F
  normal : Vec3 F

/-- Struct `Geometry::Material`. -/
structure Material (F : Type) where
  diffuse_color : Vec3 F
  specular_color : Vec3 F
  specular_power : F
  reflection_factor : F
  refraction_factor : F
  refraction_index : F

/-- Struct `Sphere`. -/
structure Sphere (F : Type) where
  position : Vec3 F
  radius : F
  material : Material F

/-- Struct `Plane`. -/
structure Plane (F : Type) where
  normal : Vec3 F
  d : F
  material : Material F

/-- The two implementations of the abstract struct `Geometry`. -/
inductive Geometry (F : Type) where
  | sphere : Sphere F → Geometry F
  | plane : Plane F → Geometry F

section Intersection

variable {F : Type} [LinearOrderedField F]

/-- Method `Sphere::intersectRay`.  The first component is the returned value,
the second the content of the out-parameter `intersection` afterwards. -/
def Sphere.intersectRay (g : Glm F) (sph : Sphere F) (ray : Ray F)
    (intersection : Vec3 F) (max_depth : F) : F × Vec3 F :=
  let l := sph.position.sub ray.position
  let s := Vec3.dot l ray.normal
  let l2 := Vec3.dot l l
  let r2 := sph.radius * sph.radius
  if s < 0 ∧ l2 > r2 then (0, intersection)
  else
    let m2 := l2 - s * s
    if m2 > r2 then (0, intersection)
    else
      let q := g.sqrt (r2 - m2)
      let tr : F × F := if l2 > r2 then (s - q, 1) else (s + q, -1)
      if tr.1 > max_depth then (0, intersection)
      else (tr.2, ray.position.add (ray.normal.muls tr.1))

/-- Method `Sphere::getNormal`. -/
def Sphere.getNormal (g : Glm F) (sph : Sphere F) (intersection : Vec3 F) :
    Vec3 F :=
  Vec3.normalize g (intersection.sub sph.position)

/-- Method `Plane::intersectRay`, same conventions as for the sphere. -/
def Plane.intersectRay (pl : Plane F) (ray : Ray F)
    (intersection : Vec3 F) (max_depth : F) : F × Vec3 F :=
  let angle := Vec3.dot pl.normal ray.normal
  if angle = 0 then (0, intersection)
  else
    let result : F := if angle > 0 then -1 else 1
    let t := -(Vec3.dot pl.normal ray.position + pl.d) / angle
    if t < 0 then (0, intersection)
    else if t > max_depth then (0, intersection)
    else (result, ray.position.add (ray.normal.muls t))

/-- A division that is an error when the divisor is zero. -/
def checkedDiv (a b : F) : Option F := if b = 0 then none else some (a / b)

/-- Method `Plane::intersectRay` with its division checked: the result is
`none` if the statement `t = ... / angle` is reached with `angle = 0`. -/
def Plane.intersectRayChecked (pl : Plane F) (ray : Ray F)
    (intersection : Vec3 F) (max_depth : F) : Option (F × Vec3 F) :=
  let angle := Vec3.dot pl.normal ray.normal
  if angle = 0 then some (0, intersection)
  else
    let result : F := if angle > 0 then -1 else 1
    match checkedDiv (-(Vec3.dot pl.normal ray.position + pl.d)) angle with
    | none => none
    | some t =>
      if t < 0 then some (0, intersection)
      else if t > max_depth then some (0, intersection)
      else some (result, ray.position.add (ray.normal.muls t))

/-- Method `Plane::getNormal`. -/
def Plane.getNormal (pl : Plane F) (_intersection : Vec3 F) : Vec3 F :=
  pl.normal

/-- Virtual call `geometry->intersectRay(ray, intersection, max_depth)`. -/
def Geometry.intersectRay (g : Glm F) (geometry : Geometry F) (ray : Ray F)
    (intersection : Vec3 F) (max_depth : F) : F × Vec3 F :=
  match geometry with
  | .sphere sph => sph.intersectRay g ray intersection max_depth
  | .plane pl => pl.intersectRay ray intersection max_depth

/-- Virtual call `geometry->getNormal(intersection)`. -/
def Geometry.getNormal (g : Glm F) (geometry : Geometry F)
    (intersection : Vec3 F) : Vec3 F :=
  match geometry with
  | .sphere sph => sph.getNormal g intersection
  | .plane pl => pl.getNormal intersection

/-- Virtual call `geometry->getMaterial()`. -/
def Geometry.getMaterial (geometry : Geometry F) : Material F :=
  match geometry with
  | .sphere sph => sph.material
  | .plane pl => pl.material

end Intersection

/-! ## Recursive shading -/

/-- The scene held by a `Raytracer`: `geometry_list` and `point_light`. -/
structure Scene (F : Type) where
  geometry_list : List (Geometry F)
  point_light : PointLight F

/-- Result of one call of `raytrace`: the content of the out-parameter `color`
afterwards, and two ghost counters, the number of `intersectRay` calls and the
number of recursive `raytrace` calls the call has made (transitively). -/
structure Traced (F : Type) where
  color : Vec3 F
  tests : Nat
  calls : Nat

section Shading

variable {F : Type} [LinearOrderedField F]

/-- Local constant `reflection_epsilon` of `raytrace`. -/
def reflection_epsilon : F := 0.0002

/-- Local constant `pi` of `raytrace`. -/
def pi : F := 3.141592653589793238462643383279502884197169399375105820974944

/-- Local constant `space_refraction_index` of `raytrace`. -/
def space_refraction_index : F := 1.000277

/-- The shadow loop of `raytrace`: every geometry is tested against the shadow
ray, a hit sets `shadow_factor` to `0.5`.  Returns the final
`shadow_factor`. -/
def shadowLoop (g : Glm F) (shadow_ray : Ray F) (max_distance : F) :
    List (Geometry F) → Vec3 F → F → F
  | [], _, shadow_factor => shadow_factor
  | shadow_geometry :: rest, shadow_intersection, shadow_factor =>
    let r := shadow_geometry.intersectRay g shadow_ray shadow_intersection
      max_distance
    shadowLoop g shadow_ray max_distance rest r.2
      (if r.1 ≠ 0 then 0.5 else shadow_factor)

/-- The block `if (result > 0.0f) { shadows, lighting, reflection }` of
`raytrace`.  `self` is `raytrace` itself, for the recursive call; `tests` is
the number of intersection tests made so far. -/
def shadeLit (g : Glm F) (scene : Scene F)
    (self : Ray F → Vec3 F → Nat → Option (Traced F))
    (ray : Ray F) (color : Vec3 F) (depth : Nat)
    (material : Material F) (result : F)
    (intersection light_direction intersection_normal : Vec3 F)
    (tests : Nat) : Option (Traced F) :=
  if result > 0 then
    let shadow_ray : Ray F :=
      ⟨intersection.add (light_direction.muls reflection_epsilon),
        light_direction⟩
    let shadow_factor :=
      shadowLoop g shadow_ray
        (Vec3.length g (scene.point_light.position.sub intersection))
        scene.geometry_list g.vec3_default 1
    let tests := tests + scene.geometry_list.length
    let h := Vec3.normalize g (ray.normal.neg.add light_direction)
    let color := color.add
      ((((material.diffuse_color.divs pi).mul scene.point_light.color).muls
        (clamp (Vec3.dot light_direction intersection_normal) 0 1)).muls
        shadow_factor)
    let color := color.add
      ((((Vec3.smul
        (((material.specular_power + 8) / (8 * pi)) *
          g.pow (clamp (Vec3.dot h intersection_normal) 0 1)
            material.specular_power)
        material.specular_color)).mul
        (scene.point_light.color.muls
          (clamp (Vec3.dot light_direction intersection_normal) 0 1))).muls
        shadow_factor)
    if material.reflection_factor > 0 then
      let reflection_normal := ray.normal.sub
        (Vec3.smul (2 * Vec3.dot ray.normal intersection_normal)
          intersection_normal)
      let reflection_ray : Ray F :=
        ⟨intersection.add (reflection_normal.muls reflection_epsilon),
          reflection_normal⟩
      match self reflection_ray g.vec3_default (sizeAdd depth 1) with
      | none => none
      | some r =>
        some ⟨color.add (Vec3.smul material.reflection_factor r.color),
          tests + r.tests, 1 + r.calls⟩
    else some ⟨color, tests, 0⟩
  else some ⟨color, tests, 0⟩

/-- The block `if (material.refraction_factor > 0.0f) { ... }` of `raytrace`;
`acc` is the state of `color` and of the counters before the block. -/
def shadeRefraction (g : Glm F)
    (self : Ray F → Vec3 F → Nat → Option (Traced F))
    (ray : Ray F) (depth : Nat) (material : Material F) (result : F)
    (intersection intersection_normal : Vec3 F) (acc : Traced F) :
    Option (Traced F) :=
  if material.refraction_factor > 0 then
    let n := space_refraction_index / material.refraction_index
    let N := intersection_normal.muls result
    let cosI := -Vec3.dot N ray.normal
    let cosT2 := 1 - n * n * (1 - cosI * cosI)
    if cosT2 > 0 then
      let T := (Vec3.smul n ray.normal).add
        (Vec3.smul (n * cosI - g.sqrt cosT2) N)
      match self ⟨intersection.add (T.muls reflection_epsilon), T⟩
          g.vec3_default (sizeAdd depth 1) with
      | none => none
      | some r =>
        some ⟨acc.color.add r.color, acc.tests + r.tests,
          acc.calls + 1 + r.calls⟩
    else some acc
  else some acc

/-- The body of `if (result != 0.0f) { ... return; }` in `raytrace`, for the
geometry that was hit. -/
def shadeHit (g : Glm F) (scene : Scene F)
    (self : Ray F → Vec3 F → Nat → Option (Traced F))
    (ray : Ray F) (color : Vec3 F) (depth : Nat)
    (geometry : Geometry F) (result : F) (intersection : Vec3 F)
    (tests : Nat) : Option (Traced F) :=
  let light_direction :=
    Vec3.normalize g (scene.point_light.position.sub intersection)
  let material := geometry.getMaterial
  let intersection_normal := geometry.getNormal g intersection
  match shadeLit g scene self ray color depth material result intersection
      light_direction intersection_normal tests with
  | none => none
  | some acc =>
    shadeRefraction g self ray depth material result intersection
      intersection_normal acc

/-- The geometry loop of `raytrace`: the first geometry with a nonzero result
is shaded and the function returns; without a hit `color` is unchanged. -/
def scanLoop (g : Glm F) (scene : Scene F)
    (self : Ray F → Vec3 F → Nat → Option (Traced F))
    (ray : Ray F) (color : Vec3 F) (depth : Nat) :
    List (Geometry F) → Vec3 F → Nat → Option (Traced F)
  | [], _, tests => some ⟨color, tests, 0⟩
  | geometry :: rest, intersection, tests =>
    let r := geometry.intersectRay g ray intersection FLT_MAX
    if r.1 ≠ 0 then
      shadeHit g scene self ray color depth geometry r.1 r.2 (tests + 1)
    else scanLoop g scene self ray color depth rest r.2 (tests + 1)

/-- Method `Raytracer::raytrace(ray, color, depth)` with `current_job.max_depth
= max_depth`.  The first argument bounds the nesting of recursive calls; the
result is `none` when that bound is used up. -/
def raytrace (g : Glm F) (scene : Scene F) (max_depth : Nat) :
    Nat → Ray F → Vec3 F → Nat → Option (Traced F)
  | 0, _, _, _ => none
  | fuel + 1, ray, color, depth =>
    if depth > max_depth then some ⟨color, 0, 0⟩
    else
      scanLoop g scene (raytrace g scene max_depth fuel) ray color depth
        scene.geometry_list g.vec3_default 0

/-- Method `Raytracer::CalculatePixel(x, y, color)` for a worker with the given
texture size and current job. -/
def CalculatePixel (g : Glm F) (scene : Scene F)
    (texture_width texture_height : Nat) (current_job : Job F)
    (fuel : Nat) (x y : Nat) (color : Vec3 F) : Option (Traced F) :=
  let aspect_ratio : F := (texture_height : F) / (texture_width : F)
  let normalized_x : F := (x : F) / (texture_width : F) - 0.5
  let normalized_y : F :=
    ((1 - (y : F) / (texture_height : F)) - 0.5) * aspect_ratio
  let ray_origin := current_job.camera_position
  let ray : Ray F :=
    ⟨ray_origin, Vec3.normalize g ⟨normalized_x, normalized_y, 0.5⟩⟩
  raytrace g scene current_job.max_depth fuel ray color 0

/-- One pass through the body of the `do ... while` loop of
`Raytracer::operator()`, up to the test of `running`: an idle worker sleeps, a
worker with a job renders every pixel of its rows (`color` starts at
`(0, 0, 0)`) and then sets `job_done`.  `fuel` bounds the nesting of
`raytrace`. -/
def workerIteration [FloorRing F] (g : Glm F) (scene : Scene F) (fuel : Nat)
    (w : Worker F) (texture_data : List Nat) : Option (Worker F × List Nat) :=
  if w.job_done then some (w, texture_data)
  else
    match renderJob w.texture_width
        (fun x y =>
          (CalculatePixel g scene w.texture_width w.texture_height
            w.current_job fuel x y ⟨0, 0, 0⟩).map Traced.color)
        w.current_job texture_data with
    | none => none
    | some d => some ({ w with job_done := true }, d)

end Shading

/-! ## The single red sphere scene of the end-to-end property -/

/-- Material with diffuse colour `(1,0,0)`, zero specular colour, and
reflection and refraction factors 0. -/
def redMaterial {F : Type} [LinearOrderedField F]
    (specular_power refraction_index : F) : Material F :=
  { diffuse_color := ⟨1, 0, 0⟩
    specular_color := ⟨0, 0, 0⟩
    specular_power := specular_power
    reflection_factor := 0
    refraction_factor := 0
    refraction_index := refraction_index }

/-- The sphere with centre `(0,0,5)` and radius 1 carrying `redMaterial`. -/
def redSphere {F : Type} [LinearOrderedField F]
    (specular_power refraction_index : F) : Sphere F :=
  { position := ⟨0, 0, 5⟩
    radius := 1
    material := redMaterial specular_power refraction_index }

/-- The scene made of `redSphere` alone and one point light. -/
def redSphereScene {F : Type} [LinearOrderedField F]
    (light : PointLight F) (specular_power refraction_index : F) : Scene F :=
  { geometry_list := [Geometry.sphere (redSphere specular_power refraction_index)]
    point_light := light }

/-! ## Worker pool and key events (`Application`) -/

/-- Program counter of a worker thread inside `Raytracer::operator()`. -/
inductive WorkerPc where
  /-- About to execute `done = job_done` under `job_mutex`. -/
  | check
  /-- After `if (!done)`, about to execute `y = current_job.y_start`. -/
  | start
  /-- At the test of the loop over `y`. -/
  | rows
  /-- At the test of the loop over `x`. -/
  | cols
  /-- About to execute `job_done = true` under `job_mutex`. -/
  | finish
  /-- In `sleep_for`. -/
  | sleep
  /-- About to execute `_running = running` under `running_mutex`. -/
  | readRunning
  /-- The function `operator()` has returned. -/
  | exited
deriving DecidableEq, Repr

/-- Thread-local state of a worker thread: program counter, the loop
variables, and (ghost) the pixels written since the current job was started. -/
structure Thread where
  pc : WorkerPc
  y : Nat
  x : Nat
  written : List (Nat × Nat)

/-- A worker object together with the thread that runs it. -/
structure Slot (F : Type) where
  worker : Worker F
  thread : Thread

/-- One step of the thread running `operator()` on worker `w`, where `W` is
`(size_t)texture_width`.  There is no step once the function has returned. -/
def Thread.step {F : Type} (W : Nat) (w : Worker F) (t : Thread) :
    Option (Slot F) :=
  match t.pc with
  | .check =>
    if w.job_done then some ⟨w, { t with pc := .sleep }⟩
    else some ⟨w, { t with pc := .start, written := [] }⟩
  | .start => some ⟨w, { t with pc := .rows, y := w.current_job.y_start }⟩
  | .rows =>
    if t.y < sizeAdd w.current_job.y_start w.current_job.y_count then
      some ⟨w, { t with pc := .cols, x := 0 }⟩
    else some ⟨w, { t with pc := .finish }⟩
  | .cols =>
    if t.x < W then
      some ⟨w, { t with x := sizeAdd t.x 1, written := (t.x, t.y) :: t.written }⟩
    else some ⟨w, { t with pc := .rows, y := sizeAdd t.y 1 }⟩
  | .finish => some ⟨{ w with job_done := true }, { t with pc := .readRunning }⟩
  | .sleep => some ⟨w, { t with pc := .readRunning }⟩
  | .readRunning =>
    if w.running then some ⟨w, { t with pc := .check }⟩
    else some ⟨w, { t with pc := .exited }⟩
  | .exited => none

/-- Program counter of the controller thread. -/
inductive ControllerPc where
  /-- Top of the `while (running)` loop, before `pollEvents`. -/
  | loopTop
  /-- In the completion poll, about to call `jobDone()` on worker `k`; `done`
  is still `true`. -/
  | poll (k : Nat)
  /-- Inside `if (done)`, about to call `texture->update(texture_data)`. -/
  | frameReady
  /-- In the loop of `assignJobs` at index `k`, about to execute
  `current_job = new_job` of `setJob`. -/
  | assign (k lines_assigned : Nat)
  /-- Inside `setJob` on worker `k`, about to execute `job_done = false`. -/
  | assignFlag (k lines_assigned : Nat)
  /-- In the first loop of `stopThreads`, about to call `stop()` on worker
  `k`. -/
  | stop (k : Nat)
  /-- In the second loop of `stopThreads`, about to join thread `k`. -/
  | join (k : Nat)
  /-- The vectors are cleared, about to run the loop of `createThreads`. -/
  | create
deriving DecidableEq, Repr

/-- State of the whole system.  `nworkers` is `workers.size()`; `saw_false`
(ghost) records that a `jobDone()` call of the current loop iteration returned
`false`, `uploads` (ghost) counts the calls of `texture->update`. -/
structure System (F : Type) where
  threads : Nat
  max_depth : Int
  camera_position : Vec3 F
  width : Nat
  height : Nat
  junk_job : Job F
  next_uid : Nat
  nworkers : Nat
  slots : Nat → Slot F
  pc : ControllerPc
  saw_false : Bool
  uploads : Nat

/-- What makes the system move. -/
inductive Label (F : Type) where
  /-- Worker thread `k` takes its next step. -/
  | worker (k : Nat)
  /-- The controller takes its next step. -/
  | controller
  /-- At the top of the loop, `pollEvents` delivers a key event whose handler
  leaves `threads` (a `size_t`) and `max_depth` at the given values and calls
  `createThreads`. -/
  | keyRebuild (threads : Nat) (max_depth : Int)
  /-- At the top of the loop, the camera keys move the camera. -/
  | moveCamera (camera_position : Vec3 F)

/-- A freshly constructed worker with its freshly started thread. -/
def Slot.fresh {F : Type} (uid : Nat) (junk : Job F) (w h : Nat) : Slot F :=
  ⟨Worker.new uid junk w h, ⟨.check, 0, 0, []⟩⟩

/-- One step of the controller. -/
def System.controllerStep {F : Type} (s : System F) : Option (System F) :=
  match s.pc with
  | .loopTop => some { s with pc := .poll 0, saw_false := false }
  | .poll k =>
    if k < s.nworkers then
      if (s.slots k).worker.jobDone then some { s with pc := .poll (k + 1) }
      else some { s with pc := .loopTop, saw_false := true }
    else some { s with pc := .frameReady }
  | .frameReady =>
    if s.threads = 0 then none
    else some { s with pc := .assign 0 0, uploads := s.uploads + 1 }
  | .assign k lines_assigned =>
    if k < s.threads then
      if k < s.nworkers then
        let job : Job F :=
          { y_start := lines_assigned
            y_count := if k < sizeSub s.threads 1 then s.height / s.threads
                       else sizeSub s.height lines_assigned
            max_depth := intToSize s.max_depth
            camera_position := s.camera_position }
        some { s with
          slots := Function.update s.slots k
            ⟨{ (s.slots k).worker with current_job := job }, (s.slots k).thread⟩
          pc := .assignFlag k lines_assigned }
      else none
    else some { s with pc := .loopTop }
  | .assignFlag k lines_assigned =>
    some { s with
      slots := Function.update s.slots k
        ⟨{ (s.slots k).worker with job_done := false }, (s.slots k).thread⟩
      pc := .assign (sizeAdd k 1)
        (sizeAdd lines_assigned (s.height / s.threads)) }
  | .stop k =>
    if k < s.nworkers then
      some { s with
        slots := Function.update s.slots k
          ⟨(s.slots k).worker.stop, (s.slots k).thread⟩
        pc := .stop (k + 1) }
    else some { s with pc := .join 0 }
  | .join k =>
    if k < s.nworkers then
      if (s.slots k).thread.pc = .exited then some { s with pc := .join (k + 1) }
      else none
    else some { s with pc := .create }
  | .create =>
    if s.threads = 0 then none
    else
      some { s with
        slots := fun k => Slot.fresh (s.next_uid + k) s.junk_job s.width s.height
        nworkers := s.threads
        next_uid := s.next_uid + s.threads
        pc := .assign 0 0 }

/-- One step of the system; `none` when the labelled step is not enabled (a
blocked `join`, a thread that has returned) or an error (division by zero,
index out of range). -/
def System.step {F : Type} (s : System F) : Label F → Option (System F)
  | .worker k =>
    if k < s.nworkers then
      match Thread.step s.width (s.slots k).worker (s.slots k).thread with
      | none => none
      | some slot => some { s with slots := Function.update s.slots k slot }
    else none
  | .controller => s.controllerStep
  | .keyRebuild threads max_depth =>
    if s.pc = .loopTop ∧ threads < SIZE_MOD then
      some { s with threads := threads, max_depth := max_depth, pc := .stop 0 }
    else none
  | .moveCamera camera_position =>
    if s.pc = .loopTop then some { s with camera_position := camera_position }
    else none

/-- A job record standing for uninitialised memory. -/
def sampleJunkJob : Job ℚ :=
  { y_start := 0, y_count := 0, max_depth := 0, camera_position := ⟨0, 0, 0⟩ }

/-- A pool of three workers for an image of ten rows. -/
def sampleApp : Application ℚ :=
  { selection := 0
    threads := 3
    max_depth := 7
    camera_position := ⟨0, 0, -1 / 2⟩
    workers := [Worker.new 0 sampleJunkJob 4 10, Worker.new 1 sampleJunkJob 4 10,
      Worker.new 2 sampleJunkJob 4 10]
    worker_threads := [0, 1, 2]
    keys := fun _ => false
    width := 4
    height := 10
    next_uid := 3
    junk_job := sampleJunkJob }

/-- Stand-ins over `ℚ` for the `glm` operations, for running the definitions. -/
def sampleGlm : Glm ℚ :=
  { sqrt := fun x => x, pow := fun x _ => x, vec3_default := ⟨0, 0, 0⟩ }

/-! ## Theorems -/

theorem SIZE_MOD_eq : SIZE_MOD = 18446744073709551616 := by
  norm_num [SIZE_MOD]

theorem sizeAdd_eq {a b : Nat} (h : a + b < SIZE_MOD) : sizeAdd a b = a + b :=
  Nat.mod_eq_of_lt h

theorem sizeSub_eq {a b : Nat} (hb : b ≤ a) (ha : a < SIZE_MOD) :
    sizeSub a b = a - b := by
  unfold sizeSub
  rw [SIZE_MOD_eq] at *
  omega

theorem sizeMul_eq {a b : Nat} (h : a * b < SIZE_MOD) : sizeMul a b = a * b :=
  Nat.mod_eq_of_lt h

theorem setJobAt_of_lt {F : Type} (ws : List (Worker F)) (i : Nat) (job : Job F)
    (h : i < ws.length) :
    setJobAt ws i job = some (ws.set i ((ws.get ⟨i, h⟩).setJob job)) := by
  unfold setJobAt
  rw [List.getElem?_eq_getElem h]
  rfl

theorem mul_div_le_of_le {H T i : Nat} (hi : i ≤ T) : i * (H / T) ≤ H :=
  le_trans (Nat.mul_le_mul_right _ hi) (Nat.mul_div_le H T)

/-- The loop of `assignJobs`, started at index `i` with `lines_assigned =
i * step`, gives worker `k` (for `i ≤ k < T`) the job `jobOf H T k` and
leaves the workers before `i` alone. -/
theorem assignJobsLoop_spec {F : Type} (H T : Nat) (md : Int) (cam : Vec3 F)
    (hT : 1 ≤ T) (hT2 : T < SIZE_MOD) (hH : H < SIZE_MOD) :
    ∀ (n i : Nat) (ws : List (Worker F)), i + n = T → ws.length = T →
      ∃ ws', assignJobsLoop H T (H / T) md cam n i (i * (H / T)) ws = some ws' ∧
        ws'.length = T ∧
        ∀ k, ws'[k]? =
          if i ≤ k then (ws[k]?).map (fun w => w.setJob (jobOf H T md cam k))
          else ws[k]? := by
  intro n
  induction n with
  | zero =>
    intro i ws hin hlen
    refine ⟨ws, rfl, hlen, ?_⟩
    intro k
    have hiT : i = T := by omega
    by_cases hk : i ≤ k
    · have : ws.length ≤ k := by omega
      simp [hk, List.getElem?_eq_none this]
    · simp [hk]
  | succ n ih =>
    intro i ws hin hlen
    have hi : i < ws.length := by omega
    have hstep : sizeAdd i 1 = i + 1 := sizeAdd_eq (by omega)
    have hle : (i + 1) * (H / T) ≤ H := mul_div_le_of_le (by omega)
    have hla : sizeAdd (i * (H / T)) (H / T) = (i + 1) * (H / T) := by
      rw [Nat.succ_mul] at hle ⊢
      exact sizeAdd_eq (lt_of_le_of_lt hle hH)
    have hsub : sizeSub T 1 = T - 1 := sizeSub_eq hT hT2
    have hjob : ({ y_start := i * (H / T)
                   y_count := if i < sizeSub T 1 then H / T
                              else sizeSub H (i * (H / T))
                   max_depth := intToSize md
                   camera_position := cam } : Job F) = jobOf H T md cam i := by
      unfold jobOf
      rw [hsub]
      by_cases hlt : i < T - 1
      · simp [hlt]
      · have hiT : i = T - 1 := by omega
        have : sizeSub H (i * (H / T)) = H - (T - 1) * (H / T) := by
          rw [sizeSub_eq (mul_div_le_of_le (by omega)) hH, hiT]
        simp [hlt, this]
    obtain ⟨ws', hrun, hlen', hget⟩ :=
      ih (i + 1) (ws.set i ((ws.get ⟨i, hi⟩).setJob (jobOf H T md cam i)))
        (by omega) (by simpa using hlen)
    refine ⟨ws', ?_, hlen', ?_⟩
    · rw [assignJobsLoop]
      simp only [hjob, setJobAt_of_lt ws i _ hi, hstep, hla]
      exact hrun
    · intro k
      rw [hget k]
      by_cases hk : i + 1 ≤ k
      · have hne : i ≠ k := by omega
        have hik : i ≤ k := by omega
        simp [hk, hik, List.getElem?_set_ne hne]
      · by_cases hik : i = k
        · subst hik
          simp [List.getElem?_set_self, hi, List.getElem?_eq_getElem hi]
        · have hik2 : ¬ i ≤ k := by omega
          simp [hk, hik2, List.getElem?_set_ne hik]

theorem jobOf_end_of_lt {F : Type} (H T : Nat) (md : Int) (cam : Vec3 F) (i : Nat)
    (h : i < T - 1) :
    (jobOf H T md cam i).y_start + (jobOf H T md cam i).y_count
      = (i + 1) * (H / T) := by
  simp [jobOf, h, Nat.succ_mul]

theorem jobOf_end_last {F : Type} (H T : Nat) (md : Int) (cam : Vec3 F)
    (hT : 1 ≤ T) :
    (jobOf H T md cam (T - 1)).y_start + (jobOf H T md cam (T - 1)).y_count
      = H := by
  have h : (T - 1) * (H / T) ≤ H := mul_div_le_of_le (by omega)
  simp [jobOf]
  omega

theorem jobOf_disjoint {F : Type} (H T : Nat) (md : Int) (cam : Vec3 F)
    (i k : Nat) (hik : i < k) (hk : k < T) (y : Nat)
    (hi : (jobOf H T md cam i).hasRow y) :
    ¬ (jobOf H T md cam k).hasRow y := by
  intro hk'
  have h1 := jobOf_end_of_lt H T md cam i (by omega)
  have h2 : (i + 1) * (H / T) ≤ k * (H / T) := Nat.mul_le_mul_right _ (by omega)
  have h3 : (jobOf H T md cam k).y_start = k * (H / T) := rfl
  unfold Job.hasRow at hi hk'
  omega

theorem jobOf_cover {F : Type} (H T : Nat) (md : Int) (cam : Vec3 F)
    (hT : 1 ≤ T) (y : Nat) (hy : y < H) :
    ∃ i, i < T ∧ (jobOf H T md cam i).hasRow y := by
  by_cases hlast : (T - 1) * (H / T) ≤ y
  · refine ⟨T - 1, by omega, ?_⟩
    have h := jobOf_end_last H T md cam hT
    have h3 : (jobOf H T md cam (T - 1)).y_start = (T - 1) * (H / T) := rfl
    unfold Job.hasRow
    omega
  · have hlt : y < (T - 1) * (H / T) := by omega
    have hs : 0 < H / T := by
      rcases Nat.eq_zero_or_pos (H / T) with h0 | h0
      · rw [h0] at hlt; simp at hlt
      · exact h0
    have hi : y / (H / T) < T - 1 := (Nat.div_lt_iff_lt_mul hs).2 hlt
    refine ⟨y / (H / T), by omega, ?_⟩
    have h1 := jobOf_end_of_lt H T md cam _ hi
    have h3 : (jobOf H T md cam (y / (H / T))).y_start
        = (y / (H / T)) * (H / T) := rfl
    have h4 : y / (H / T) * (H / T) ≤ y := Nat.div_mul_le_self y (H / T)
    have h5 : y < y / (H / T) * (H / T) + H / T := Nat.lt_div_mul_add hs
    rw [Nat.succ_mul] at h1
    unfold Job.hasRow
    omega

theorem jobOf_hasRow_lt {F : Type} (H T : Nat) (md : Int) (cam : Vec3 F)
    (hT : 1 ≤ T) (i : Nat) (hi : i < T) (y : Nat)
    (hy : (jobOf H T md cam i).hasRow y) : y < H := by
  unfold Job.hasRow at hy
  by_cases hlt : i < T - 1
  · have h1 := jobOf_end_of_lt H T md cam i hlt
    have h2 : (i + 1) * (H / T) ≤ H := mul_div_le_of_le (by omega)
    omega
  · have hiT : i = T - 1 := by omega
    subst hiT
    have h := jobOf_end_last H T md cam hT
    omega

theorem assignJobs_jobs {F : Type} (app : Application F)
    (hT : 1 ≤ app.threads) (hT2 : app.threads < SIZE_MOD)
    (hH : app.height < SIZE_MOD) (hw : app.workers.length = app.threads) :
    ∃ app', assignJobs app = some app' ∧
      app'.workers.length = app.threads ∧
      app'.threads = app.threads ∧ app'.height = app.height ∧
      ∀ k : Nat, app'.workers[k]? = (app.workers[k]?).map (fun w =>
        w.setJob (jobOf app.height app.threads app.max_depth
          app.camera_position k)) := by
  obtain ⟨ws', hrun, hlen, hget⟩ :=
    assignJobsLoop_spec app.height app.threads app.max_depth
      app.camera_position hT hT2 hH app.threads 0 app.workers (by omega) hw
  rw [Nat.zero_mul] at hrun
  refine ⟨{ app with workers := ws' }, ?_, hlen, rfl, rfl, ?_⟩
  · unfold assignJobs
    have h0 : app.threads ≠ 0 := by omega
    simp only [h0, if_false, hrun]
  · intro k
    simpa using hget k

/-- C1: for image height `H` and `T ≥ 1` workers (both `size_t` values, one
worker object per thread), `assignJobs` succeeds and hands out `T` jobs, job
`i` being `y_start = i * (H / T)`, `y_count = H / T` for `i < T - 1` and
`H - (T - 1) * (H / T)` for the last; the row ranges are contiguous (the first
starts at 0, each next one starts where the previous ends, the last ends at
`H`), pairwise disjoint, and their union is exactly `[0, H)`; when `T > H` all
ranges but the last are empty. -/
theorem assignJobs_row_ranges_tile {F : Type} (app : Application F)
    (hT : 1 ≤ app.threads) (hT2 : app.threads < SIZE_MOD)
    (hH : app.height < SIZE_MOD) (hw : app.workers.length = app.threads) :
    ∃ app', assignJobs app = some app' ∧
      (app'.workers.map Worker.current_job).length = app.threads ∧
      (∀ i : Nat, i < app.threads → ∃ j : Job F,
        (app'.workers.map Worker.current_job)[i]? = some j ∧
        j.y_start = i * (app.height / app.threads) ∧
        j.y_count = (if i < app.threads - 1 then app.height / app.threads
          else app.height - (app.threads - 1) * (app.height / app.threads))) ∧
      (∀ j : Job F, (app'.workers.map Worker.current_job)[0]? = some j →
        j.y_start = 0) ∧
      (∀ (i : Nat) (a b : Job F), (app'.workers.map Worker.current_job)[i]? = some a →
        (app'.workers.map Worker.current_job)[i + 1]? = some b →
        b.y_start = a.y_start + a.y_count) ∧
      (∀ j : Job F, (app'.workers.map Worker.current_job)[app.threads - 1]? = some j →
        j.y_start + j.y_count = app.height) ∧
      (∀ (i k : Nat) (a b : Job F), i ≠ k →
        (app'.workers.map Worker.current_job)[i]? = some a →
        (app'.workers.map Worker.current_job)[k]? = some b →
        ∀ y, ¬ (a.hasRow y ∧ b.hasRow y)) ∧
      (∀ y, y < app.height ↔
        ∃ j ∈ app'.workers.map Worker.current_job, j.hasRow y) ∧
      (app.height < app.threads → ∀ (i : Nat) (j : Job F), i + 1 < app.threads →
        (app'.workers.map Worker.current_job)[i]? = some j →
        j.y_count = 0) := by
  obtain ⟨app', hrun, hlen, -, -, hget⟩ := assignJobs_jobs app hT hT2 hH hw
  have hjob : ∀ i j, (app'.workers.map Worker.current_job)[i]? = some j →
      i < app.threads ∧
      j = jobOf app.height app.threads app.max_depth app.camera_position i := by
    intro i j hij
    rw [List.getElem?_map, hget i] at hij
    rcases hwi : app.workers[i]? with _ | w
    · rw [hwi] at hij; simp at hij
    · rw [hwi] at hij
      have hlt : i < app.workers.length := by
        by_contra hcon
        rw [List.getElem?_eq_none (by omega)] at hwi
        exact Option.noConfusion hwi
      refine ⟨by omega, ?_⟩
      simpa [Worker.setJob] using hij.symm
  have hex : ∀ i, i < app.threads →
      (app'.workers.map Worker.current_job)[i]? =
        some (jobOf app.height app.threads app.max_depth
          app.camera_position i) := by
    intro i hi
    have hlt : i < app.workers.length := by omega
    rw [List.getElem?_map, hget i, List.getElem?_eq_getElem hlt]
    rfl
  refine ⟨app', hrun, by simpa using hlen, ?_, ?_, ?_, ?_, ?_, ?_, ?_⟩
  · intro i hi
    exact ⟨_, hex i hi, rfl, rfl⟩
  · intro j hj
    obtain ⟨-, rfl⟩ := hjob 0 j hj
    simp [jobOf]
  · intro i a b ha hb
    obtain ⟨-, rfl⟩ := hjob i a ha
    obtain ⟨hi, rfl⟩ := hjob (i + 1) b hb
    rw [jobOf_end_of_lt _ _ _ _ _ (by omega)]
    rfl
  · intro j hj
    obtain ⟨-, rfl⟩ := hjob _ j hj
    exact jobOf_end_last _ _ _ _ hT
  · intro i k a b hik ha hb y hy
    obtain ⟨hi, rfl⟩ := hjob i a ha
    obtain ⟨hk, rfl⟩ := hjob k b hb
    rcases Nat.lt_or_gt_of_ne hik with h | h
    · exact jobOf_disjoint _ _ _ _ i k h hk y hy.1 hy.2
    · exact jobOf_disjoint _ _ _ _ k i h hi y hy.2 hy.1
  · intro y
    constructor
    · intro hy
      obtain ⟨i, hi, hrow⟩ :=
        jobOf_cover app.height app.threads app.max_depth app.camera_position
          hT y hy
      exact ⟨_, List.getElem?_mem (hex i hi), hrow⟩
    · rintro ⟨j, hj, hrow⟩
      obtain ⟨i, hi⟩ := List.getElem?_of_mem hj
      obtain ⟨hlt, rfl⟩ := hjob i j hi
      exact jobOf_hasRow_lt _ _ _ _ hT i hlt y hrow
  · intro hlt i j hi hj
    obtain ⟨-, rfl⟩ := hjob i j hj
    have h0 : app.height / app.threads = 0 := Nat.div_eq_of_lt hlt
    have : i < app.threads - 1 := by omega
    simp [jobOf, this, h0]

theorem pixelIndex_bounds (W H x y c lo hi : Nat) (hx : x < W) (hc : c < 3)
    (hlo : lo ≤ y) (hhi : y < hi) (hhiH : hi ≤ H) (hbuf : 3 * W * H < SIZE_MOD) :
    pixelIndex W x y c = 3 * (y * W + x) + c ∧
      3 * W * lo ≤ 3 * (y * W + x) + c ∧
      3 * (y * W + x) + c < 3 * W * hi ∧
      3 * W * hi ≤ 3 * W * H := by
  have h1 : lo * W ≤ y * W := Nat.mul_le_mul_right _ hlo
  have h2 : (y + 1) * W ≤ hi * W := Nat.mul_le_mul_right _ hhi
  have h3 : hi * W ≤ H * W := Nat.mul_le_mul_right _ hhiH
  have e1 : 3 * W * lo = 3 * (lo * W) := by ring
  have e2 : 3 * W * hi = 3 * (hi * W) := by ring
  have e3 : 3 * W * H = 3 * (H * W) := by ring
  rw [Nat.succ_mul] at h2
  rw [e3] at hbuf
  rw [e1, e2, e3]
  refine ⟨?_, by omega, by omega, by omega⟩
  unfold pixelIndex
  rw [sizeMul_eq (a := y) (by omega), sizeAdd_eq (a := y * W) (by omega),
    sizeMul_eq (b := 3) (by omega), sizeAdd_eq (by omega)]
  omega

theorem mem_jobRows_jobOf {F : Type} (H T : Nat) (md : Int) (cam : Vec3 F)
    (hT : 1 ≤ T) (hH : H < SIZE_MOD) (i : Nat) (hi : i < T) (y : Nat) :
    y ∈ jobRows (jobOf H T md cam i) ↔ (jobOf H T md cam i).hasRow y := by
  have hend : (jobOf H T md cam i).y_start + (jobOf H T md cam i).y_count ≤ H := by
    by_cases hlt : i < T - 1
    · rw [jobOf_end_of_lt H T md cam i hlt]
      exact mul_div_le_of_le (by omega)
    · have hiT : i = T - 1 := by omega
      rw [hiT, jobOf_end_last H T md cam hT]
  unfold jobRows Job.hasRow
  rw [sizeAdd_eq (lt_of_le_of_lt hend hH), List.mem_range'_1]
  omega

theorem foldlM_option_inv {α σ : Type} (P : σ → Prop) (f : σ → α → Option σ) :
    ∀ (l : List α), (∀ s a, a ∈ l → P s → ∃ s', f s a = some s' ∧ P s') →
      ∀ s, P s → ∃ s', l.foldlM f s = some s' ∧ P s' := by
  intro l
  induction l with
  | nil => intro _ s hs; exact ⟨s, rfl, hs⟩
  | cons a l ih =>
    intro h s hs
    obtain ⟨s1, h1, hP1⟩ := h s a (List.mem_cons_self a l) hs
    obtain ⟨s2, h2, hP2⟩ :=
      ih (fun s b hb hP => h s b (List.mem_cons_of_mem a hb) hP) s1 hP1
    refine ⟨s2, ?_, hP2⟩
    rw [List.foldlM_cons, h1]
    exact h2

theorem writeByte_of_lt (d : List Nat) (i v : Nat) (h : i < d.length) :
    ∃ d', writeByte d i v = some d' ∧ d'.length = d.length := by
  refine ⟨d.set i v, ?_, by simp⟩
  simp [writeByte, h]

theorem WritePixel_of_lt {F : Type} [LinearOrderedField F] [FloorRing F]
    (W : Nat) (d : List Nat) (x y : Nat) (color : Vec3 F)
    (h : ∀ c, c < 3 → pixelIndex W x y c < d.length) :
    ∃ d', WritePixel W d x y color = some d' ∧ d'.length = d.length := by
  obtain ⟨d0, h0, l0⟩ := writeByte_of_lt d (pixelIndex W x y 0) (toByte color.x)
    (h 0 (by omega))
  obtain ⟨d1, h1, l1⟩ := writeByte_of_lt d0 (pixelIndex W x y 1) (toByte color.y)
    (by rw [l0]; exact h 1 (by omega))
  obtain ⟨d2, h2, l2⟩ := writeByte_of_lt d1 (pixelIndex W x y 2) (toByte color.z)
    (by rw [l1, l0]; exact h 2 (by omega))
  refine ⟨d2, ?_, by rw [l2, l1, l0]⟩
  unfold WritePixel
  rw [h0]
  simp only [Option.bind_eq_bind, Option.some_bind, h1]
  exact h2

/-- C2: for width `W ≥ 1`, height `H` and `T ≥ 1` workers such that the
`W * H * 3` bytes of the buffer are addressable by a `size_t`, every job that
`assignJobs` hands out and every pixel `(x, y)` the worker loop visits for it:
the three indices computed by `WritePixel` are `3 * (y * W + x) + c` and lie in
`[3 * W * y_start, 3 * W * (y_start + y_count))`, which is inside
`[0, 3 * W * H)`; rendering the job into a buffer of `3 * W * H` bytes never
stores out of range; and two different workers never compute the same byte
index. -/
theorem worker_writes_in_own_rows {F : Type} [LinearOrderedField F] [FloorRing F]
    (app : Application F) (W : Nat) (hW : 1 ≤ W)
    (hT : 1 ≤ app.threads) (hT2 : app.threads < SIZE_MOD)
    (hbuf : 3 * W * app.height < SIZE_MOD)
    (hw : app.workers.length = app.threads) :
    ∃ app', assignJobs app = some app' ∧
      (∀ (i : Nat) (w : Worker F), app'.workers[i]? = some w →
        (∀ x y c : Nat, visits W w.current_job x y → c < 3 →
          pixelIndex W x y c = 3 * (y * W + x) + c ∧
          3 * W * w.current_job.y_start ≤ pixelIndex W x y c ∧
          pixelIndex W x y c
            < 3 * W * (w.current_job.y_start + w.current_job.y_count) ∧
          3 * W * (w.current_job.y_start + w.current_job.y_count)
            ≤ 3 * W * app.height) ∧
        (∀ (pixel : Nat → Nat → Option (Vec3 F)) (texture_data : List Nat),
          (∀ x y, ∃ color, pixel x y = some color) →
          texture_data.length = 3 * W * app.height →
          ∃ d, renderJob W pixel w.current_job texture_data = some d ∧
            d.length = 3 * W * app.height)) ∧
      (∀ (i k : Nat) (a b : Worker F), i ≠ k →
        app'.workers[i]? = some a → app'.workers[k]? = some b →
        ∀ x y c x' y' c' : Nat, visits W a.current_job x y → c < 3 →
          visits W b.current_job x' y' → c' < 3 →
          pixelIndex W x y c ≠ pixelIndex W x' y' c') := by
  have hH : app.height < SIZE_MOD := by
    have : app.height ≤ 3 * W * app.height :=
      Nat.le_mul_of_pos_left _ (by omega)
    omega
  obtain ⟨app', hrun, hlen, -, -, hget⟩ := assignJobs_jobs app hT hT2 hH hw
  have hjob : ∀ (i : Nat) (w : Worker F), app'.workers[i]? = some w →
      i < app.threads ∧ w.current_job =
        jobOf app.height app.threads app.max_depth app.camera_position i := by
    intro i w hiw
    rw [hget i] at hiw
    rcases hwi : app.workers[i]? with _ | w0
    · rw [hwi] at hiw; simp at hiw
    · rw [hwi] at hiw
      have hlt : i < app.workers.length := by
        by_contra hcon
        rw [List.getElem?_eq_none (by omega)] at hwi
        exact Option.noConfusion hwi
      refine ⟨by omega, ?_⟩
      simp only [Option.map_some', Option.some.injEq] at hiw
      rw [← hiw]
      rfl
  have hvis : ∀ (i : Nat) (w : Worker F), app'.workers[i]? = some w →
      ∀ x y : Nat, visits W w.current_job x y →
        x < W ∧ w.current_job.hasRow y ∧
        w.current_job.y_start + w.current_job.y_count ≤ app.height := by
    intro i w hiw x y hv
    obtain ⟨hi, hj⟩ := hjob i w hiw
    obtain ⟨hy, hx⟩ := hv
    rw [hj] at hy ⊢
    rw [mem_jobRows_jobOf _ _ _ _ hT hH i hi] at hy
    refine ⟨by simpa [List.mem_range'_1] using hx, hy, ?_⟩
    by_cases hlt : i < app.threads - 1
    · rw [jobOf_end_of_lt _ _ _ _ i hlt]
      exact mul_div_le_of_le (by omega)
    · have hiT : i = app.threads - 1 := by omega
      rw [hiT, jobOf_end_last _ _ _ _ hT]
  have hidx : ∀ (i : Nat) (w : Worker F), app'.workers[i]? = some w →
      ∀ x y c : Nat, visits W w.current_job x y → c < 3 →
        pixelIndex W x y c = 3 * (y * W + x) + c ∧
        3 * W * w.current_job.y_start ≤ 3 * (y * W + x) + c ∧
        3 * (y * W + x) + c
          < 3 * W * (w.current_job.y_start + w.current_job.y_count) ∧
        3 * W * (w.current_job.y_start + w.current_job.y_count)
          ≤ 3 * W * app.height := by
    intro i w hiw x y c hv hc
    obtain ⟨hx, hy, hend⟩ := hvis i w hiw x y hv
    exact pixelIndex_bounds W app.height x y c _ _ hx hc hy.1 hy.2 hend hbuf
  refine ⟨app', hrun, ?_, ?_⟩
  · intro i w hiw
    refine ⟨?_, ?_⟩
    · intro x y c hv hc
      obtain ⟨h1, h2, h3, h4⟩ := hidx i w hiw x y c hv hc
      rw [h1]
      exact ⟨rfl, h2, h3, h4⟩
    · intro pixel texture_data hpix hlen0
      unfold renderJob
      refine foldlM_option_inv (fun d : List Nat => d.length = 3 * W * app.height)
        _ _ ?_ _ hlen0
      intro d y hy hd
      refine foldlM_option_inv (fun d : List Nat => d.length = 3 * W * app.height)
        _ _ ?_ _ hd
      intro d' x hx hd'
      obtain ⟨color, hcolor⟩ := hpix x y
      rw [hcolor]
      obtain ⟨d'', hd'', hl⟩ := WritePixel_of_lt W d' x y color (by
        intro c hc
        obtain ⟨h1, h2, h3, h4⟩ := hidx i w hiw x y c ⟨hy, hx⟩ hc
        rw [h1, hd']
        omega)
      exact ⟨d'', hd'', hl.trans hd'⟩
  · intro i k a b hik ha hb x y c x' y' c' hv hc hv' hc'
    obtain ⟨h1, -, -, -⟩ := hidx i a ha x y c hv hc
    obtain ⟨h1', -, -, -⟩ := hidx k b hb x' y' c' hv' hc'
    obtain ⟨hx, hy, -⟩ := hvis i a ha x y hv
    obtain ⟨hx', hy', -⟩ := hvis k b hb x' y' hv'
    obtain ⟨hi, hja⟩ := hjob i a ha
    obtain ⟨hk, hjb⟩ := hjob k b hb
    rw [h1, h1']
    intro heq
    have hyy : y = y' := by
      have e1 : (y * W + x) / W = y := by
        rw [Nat.mul_comm, Nat.mul_add_div (by omega), Nat.div_eq_of_lt hx]
        rfl
      have e2 : (y' * W + x') / W = y' := by
        rw [Nat.mul_comm, Nat.mul_add_div (by omega), Nat.div_eq_of_lt hx']
        rfl
      have e3 : y * W + x = y' * W + x' := by omega
      rw [← e1, ← e2, e3]
    subst hyy
    rw [hja] at hy
    rw [hjb] at hy'
    rcases Nat.lt_or_gt_of_ne hik with h | h
    · exact jobOf_disjoint _ _ _ _ i k h hk y hy hy'
    · exact jobOf_disjoint _ _ _ _ k i h hi y hy' hy

theorem sphere_near_root_nonneg {s q l2 r2 : ℝ} (hq0 : 0 ≤ q)
    (hq : q * q = r2 - (l2 - s * s)) (hs : 0 ≤ s) (hout : r2 < l2) :
    0 ≤ s - q := by
  nlinarith

theorem sphere_far_root_nonneg {s q l2 r2 : ℝ} (hq0 : 0 ≤ q)
    (hq : q * q = r2 - (l2 - s * s)) (hin : l2 ≤ r2) :
    0 ≤ s + q := by
  nlinarith

/-- C3: over the reals, `Sphere::intersectRay` returns a nonzero value exactly
when the line of the ray passes within the radius of the centre
(`|C-O|² - dot(C-O,D)² ≤ r²`) and the hit distance `t` (the near root `s - q`
for an origin outside the sphere, the far root `s + q` for an origin inside or
on it) satisfies `0 ≤ t ≤ maxDistance`; the reported point is then `O + t D`;
and a sphere behind an outside origin (`s < 0`, `|C-O|² > r²`) is never hit. -/
theorem sphere_intersectRay_hit_iff (pow : ℝ → ℝ → ℝ) (v0 : Vec3 ℝ)
    (sph : Sphere ℝ) (ray : Ray ℝ) (intersection : Vec3 ℝ) (maxDistance : ℝ) :
    let C := sph.position
    let O := ray.position
    let D := ray.normal
    let r := sph.radius
    let s := Vec3.dot (C.sub O) D
    let l2 := Vec3.dot (C.sub O) (C.sub O)
    let q := Real.sqrt (r ^ 2 - (l2 - s ^ 2))
    let t := if l2 > r ^ 2 then s - q else s + q
    let res := sph.intersectRay ⟨Real.sqrt, pow, v0⟩ ray intersection maxDistance
    (res.1 ≠ 0 ↔ (l2 - s ^ 2 ≤ r ^ 2 ∧ 0 ≤ t ∧ t ≤ maxDistance)) ∧
      (res.1 ≠ 0 → res.2 = O.add (D.muls t)) ∧
      (s < 0 ∧ l2 > r ^ 2 → res.1 = 0) := by
  intro C O D r s l2 q t res
  have hr2 : r ^ 2 = r * r := sq r
  have hs2 : s ^ 2 = s * s := sq s
  have hq0 : 0 ≤ q := Real.sqrt_nonneg _
  have hres : res = Sphere.intersectRay ⟨Real.sqrt, pow, v0⟩ sph ray
      intersection maxDistance := rfl
  unfold Sphere.intersectRay at hres
  simp only [] at hres
  change res = (if s < 0 ∧ l2 > r * r then (0, intersection)
    else if l2 - s * s > r * r then (0, intersection)
    else if (if l2 > r * r then (s - Real.sqrt (r * r - (l2 - s * s)), (1 : ℝ))
          else (s + Real.sqrt (r * r - (l2 - s * s)), -1)).1 > maxDistance
      then (0, intersection)
      else ((if l2 > r * r then (s - Real.sqrt (r * r - (l2 - s * s)), (1 : ℝ))
          else (s + Real.sqrt (r * r - (l2 - s * s)), -1)).2,
        O.add (D.muls (if l2 > r * r
          then (s - Real.sqrt (r * r - (l2 - s * s)), (1 : ℝ))
          else (s + Real.sqrt (r * r - (l2 - s * s)), -1)).1))) at hres
  rw [← hr2, ← hs2] at hres
  by_cases h1 : s < 0 ∧ l2 > r ^ 2
  · rw [if_pos h1] at hres
    have ht : t = s - q := if_pos h1.2
    have hneg : ¬ (0 ≤ t) := by rw [ht]; linarith [h1.1]
    rw [hres]
    refine ⟨?_, ?_, ?_⟩
    · simp only [ne_eq, not_true_eq_false, false_iff]
      exact fun h => hneg h.2.1
    · intro h; exact absurd rfl h
    · intro _; rfl
  · rw [if_neg h1] at hres
    by_cases h2 : l2 - s ^ 2 > r ^ 2
    · rw [if_pos h2] at hres
      rw [hres]
      refine ⟨?_, ?_, ?_⟩
      · simp only [ne_eq, not_true_eq_false, false_iff]
        exact fun h => absurd h.1 (not_le.2 h2)
      · intro h; exact absurd rfl h
      · intro _; rfl
    · rw [if_neg h2] at hres
      have hm : l2 - s ^ 2 ≤ r ^ 2 := not_lt.1 h2
      have hq : q * q = r ^ 2 - (l2 - s ^ 2) :=
        Real.mul_self_sqrt (by linarith)
      rw [hs2, hr2] at hq
      by_cases h3 : l2 > r ^ 2
      · have ht : t = s - q := if_pos h3
        have hs : 0 ≤ s := by
          by_contra hcon
          exact h1 ⟨not_le.1 hcon, h3⟩
        rw [hr2] at h3
        have htn : 0 ≤ t := by
          rw [ht]; exact sphere_near_root_nonneg hq0 hq hs h3
        rw [← hr2] at h3
        simp only [if_pos h3] at hres
        rw [show s - √(r ^ 2 - (l2 - s ^ 2)) = t from ht.symm] at hres
        by_cases h4 : t > maxDistance
        · rw [if_pos h4] at hres
          rw [hres]
          refine ⟨?_, ?_, ?_⟩
          · simp only [ne_eq, not_true_eq_false, false_iff]
            exact fun h => absurd h.2.2 (not_le.2 h4)
          · intro h; exact absurd rfl h
          · intro _; rfl
        · rw [if_neg h4] at hres
          rw [hres]
          refine ⟨?_, ?_, ?_⟩
          · simp only [ne_eq, one_ne_zero, not_false_eq_true, true_iff]
            exact ⟨hm, htn, not_lt.1 h4⟩
          · intro _; rfl
          · intro h; exact absurd h h1
      · have ht : t = s + q := if_neg h3
        have hin : l2 ≤ r * r := by rw [← hr2]; exact not_lt.1 h3
        have htn : 0 ≤ t := by
          rw [ht]; exact sphere_far_root_nonneg hq0 hq hin
        simp only [if_neg h3] at hres
        rw [show s + √(r ^ 2 - (l2 - s ^ 2)) = t from ht.symm] at hres
        by_cases h4 : t > maxDistance
        · rw [if_pos h4] at hres
          rw [hres]
          refine ⟨?_, ?_, ?_⟩
          · simp only [ne_eq, not_true_eq_false, false_iff]
            exact fun h => absurd h.2.2 (not_le.2 h4)
          · intro h; exact absurd rfl h
          · intro h; exact absurd h h1
        · rw [if_neg h4] at hres
          rw [hres]
          refine ⟨?_, ?_, ?_⟩
          · simp only [ne_eq, neg_eq_zero, one_ne_zero, not_false_eq_true,
              true_iff]
            exact ⟨hm, htn, not_lt.1 h4⟩
          · intro _; rfl
          · intro h; exact absurd h h1

/-- C4: over any ordered field, `Plane::intersectRay` returns 0 exactly when
`dot(N,D) = 0`, or `t < 0`, or `t > maxDistance`, for
`t = -(dot(N,O)+d)/dot(N,D)`; a ray with `dot(N,D) = 0` is a no-hit for every
origin and every `maxDistance`; and the division is never evaluated with a
zero divisor (the division-checked version of the function always returns,
with the same result). -/
theorem plane_intersectRay_nohit_iff {F : Type} [LinearOrderedField F]
    (pl : Plane F) (ray : Ray F) (intersection : Vec3 F) (maxDistance : F) :
    let angle := Vec3.dot pl.normal ray.normal
    let t := -(Vec3.dot pl.normal ray.position + pl.d) / angle
    let res := pl.intersectRay ray intersection maxDistance
    (res.1 = 0 ↔ (angle = 0 ∨ t < 0 ∨ t > maxDistance)) ∧
      (angle = 0 → res.1 = 0) ∧
      pl.intersectRayChecked ray intersection maxDistance = some res := by
  intro angle t res
  have hres : res = Plane.intersectRay pl ray intersection maxDistance := rfl
  unfold Plane.intersectRay at hres
  simp only [] at hres
  change res = (if angle = 0 then (0, intersection)
    else if t < 0 then (0, intersection)
    else if t > maxDistance then (0, intersection)
    else ((if angle > 0 then (-1 : F) else 1),
      ray.position.add (ray.normal.muls t))) at hres
  have hchk : Plane.intersectRayChecked pl ray intersection maxDistance
      = some res := by
    show _ = some (Plane.intersectRay pl ray intersection maxDistance)
    unfold Plane.intersectRayChecked Plane.intersectRay checkedDiv
    simp only []
    by_cases h0 : Vec3.dot pl.normal ray.normal = 0
    · simp only [if_pos h0]
    · simp only [if_neg h0]
      split_ifs <;> rfl
  refine ⟨?_, ?_, hchk⟩
  · by_cases h0 : angle = 0
    · rw [if_pos h0] at hres
      rw [hres]
      exact ⟨fun _ => Or.inl h0, fun _ => rfl⟩
    · rw [if_neg h0] at hres
      by_cases h1 : t < 0
      · rw [if_pos h1] at hres
        rw [hres]
        exact ⟨fun _ => Or.inr (Or.inl h1), fun _ => rfl⟩
      · rw [if_neg h1] at hres
        by_cases h2 : t > maxDistance
        · rw [if_pos h2] at hres
          rw [hres]
          exact ⟨fun _ => Or.inr (Or.inr h2), fun _ => rfl⟩
        · rw [if_neg h2] at hres
          rw [hres]
          refine ⟨?_, ?_⟩
          · intro h
            exfalso
            by_cases hpos : angle > 0
            · simp [hpos] at h
            · simp [hpos] at h
          · rintro (h | h | h)
            · exact absurd h h0
            · exact absurd h h1
            · exact absurd h h2
  · intro h0
    rw [if_pos h0] at hres
    rw [hres]

theorem sphere_hit_cases (pow : ℝ → ℝ → ℝ) (v0 : Vec3 ℝ)
    (sph : Sphere ℝ) (ray : Ray ℝ) (intersection : Vec3 ℝ) (maxDistance : ℝ) :
    (sph.intersectRay ⟨Real.sqrt, pow, v0⟩ ray intersection maxDistance).1 = 0 ∨
    ∃ q : ℝ, 0 ≤ q ∧
      q * q = sph.radius * sph.radius -
        (Vec3.dot (sph.position.sub ray.position)
            (sph.position.sub ray.position) -
          Vec3.dot (sph.position.sub ray.position) ray.normal *
            Vec3.dot (sph.position.sub ray.position) ray.normal) ∧
      (sph.intersectRay ⟨Real.sqrt, pow, v0⟩ ray intersection maxDistance =
          (1, ray.position.add (ray.normal.muls
            (Vec3.dot (sph.position.sub ray.position) ray.normal - q))) ∨
       sph.intersectRay ⟨Real.sqrt, pow, v0⟩ ray intersection maxDistance =
          (-1, ray.position.add (ray.normal.muls
            (Vec3.dot (sph.position.sub ray.position) ray.normal + q)))) := by
  unfold Sphere.intersectRay
  simp only []
  split_ifs with h1 h2 h3 h4 h5
  · exact Or.inl rfl
  · exact Or.inl rfl
  · exact Or.inl rfl
  · exact Or.inr ⟨_, Real.sqrt_nonneg _,
      Real.mul_self_sqrt (by linarith [not_lt.1 h2]), Or.inl rfl⟩
  · exact Or.inl rfl
  · exact Or.inr ⟨_, Real.sqrt_nonneg _,
      Real.mul_self_sqrt (by linarith [not_lt.1 h2]), Or.inr rfl⟩

theorem dot_hit_sub_center (C O D : Vec3 ℝ) (t : ℝ) (hD : Vec3.dot D D = 1) :
    Vec3.dot ((O.add (D.muls t)).sub C) D = t - Vec3.dot (C.sub O) D := by
  simp only [Vec3.dot, Vec3.add, Vec3.sub, Vec3.muls] at hD ⊢
  linear_combination t * hD

theorem dot_hit_sub_center_self (C O D : Vec3 ℝ) (t : ℝ)
    (hD : Vec3.dot D D = 1) :
    Vec3.dot ((O.add (D.muls t)).sub C) ((O.add (D.muls t)).sub C) =
      Vec3.dot (C.sub O) (C.sub O) - 2 * t * Vec3.dot (C.sub O) D + t * t := by
  simp only [Vec3.dot, Vec3.add, Vec3.sub, Vec3.muls] at hD ⊢
  linear_combination t * t * hD

theorem dot_normalize_left (g : Glm ℝ) (v w : Vec3 ℝ) :
    Vec3.dot (Vec3.normalize g v) w = Vec3.dot v w * (1 / g.sqrt (Vec3.dot v v)) := by
  simp only [Vec3.dot, Vec3.normalize, Vec3.muls]
  ring

theorem sphere_hit_dot_self (C O D : Vec3 ℝ) (r q t : ℝ)
    (hD : Vec3.dot D D = 1)
    (hq : q * q = r * r - (Vec3.dot (C.sub O) (C.sub O) -
      Vec3.dot (C.sub O) D * Vec3.dot (C.sub O) D))
    (ht : t = Vec3.dot (C.sub O) D - q ∨ t = Vec3.dot (C.sub O) D + q) :
    Vec3.dot ((O.add (D.muls t)).sub C) ((O.add (D.muls t)).sub C) = r * r := by
  rw [dot_hit_sub_center_self C O D t hD]
  rcases ht with h | h <;> rw [h] <;> linear_combination hq

theorem plane_result_cases {F : Type} [LinearOrderedField F]
    (pl : Plane F) (ray : Ray F) (intersection : Vec3 F) (maxDistance : F) :
    (pl.intersectRay ray intersection maxDistance).1 = 0 ∨
    ((pl.intersectRay ray intersection maxDistance).1 = -1 ∧
      0 < Vec3.dot pl.normal ray.normal) ∨
    ((pl.intersectRay ray intersection maxDistance).1 = 1 ∧
      Vec3.dot pl.normal ray.normal < 0) := by
  unfold Plane.intersectRay
  simp only []
  by_cases h0 : Vec3.dot pl.normal ray.normal = 0
  · rw [if_pos h0]; exact Or.inl rfl
  · rw [if_neg h0]
    by_cases h1 : -(Vec3.dot pl.normal ray.position + pl.d) /
        Vec3.dot pl.normal ray.normal < 0
    · rw [if_pos h1]; exact Or.inl rfl
    · rw [if_neg h1]
      by_cases h2 : -(Vec3.dot pl.normal ray.position + pl.d) /
          Vec3.dot pl.normal ray.normal > maxDistance
      · rw [if_pos h2]; exact Or.inl rfl
      · rw [if_neg h2]
        by_cases h3 : Vec3.dot pl.normal ray.normal > 0
        · rw [if_pos h3]; exact Or.inr (Or.inl ⟨rfl, h3⟩)
        · rw [if_neg h3]
          exact Or.inr (Or.inr ⟨rfl, lt_of_le_of_ne (not_lt.1 h3) h0⟩)

/-- C5: over the reals, for a sphere or a plane and a ray with unit direction
`D`, the value returned by `intersectRay` is one of `-1, 0, 1`; when it is
positive the normal at the reported point satisfies `dot(getNormal(P), D) ≤ 0`
(`< 0` for a plane), when it is negative `dot(getNormal(P), D) ≥ 0` (`> 0` for
a plane). -/
theorem intersectRay_sign_matches_normal (pow : ℝ → ℝ → ℝ) (v0 : Vec3 ℝ)
    (geometry : Geometry ℝ) (ray : Ray ℝ) (intersection : Vec3 ℝ)
    (maxDistance : ℝ) (hD : Vec3.dot ray.normal ray.normal = 1) :
    let g : Glm ℝ := ⟨Real.sqrt, pow, v0⟩
    let res := geometry.intersectRay g ray intersection maxDistance
    let n := geometry.getNormal g res.2
    (res.1 = -1 ∨ res.1 = 0 ∨ res.1 = 1) ∧
      (0 < res.1 → Vec3.dot n ray.normal ≤ 0) ∧
      (res.1 < 0 → 0 ≤ Vec3.dot n ray.normal) ∧
      (∀ pl, geometry = Geometry.plane pl →
        (0 < res.1 → Vec3.dot n ray.normal < 0) ∧
        (res.1 < 0 → 0 < Vec3.dot n ray.normal)) := by
  intro g res n
  cases geometry with
  | sphere sph =>
    have hres : res = sph.intersectRay g ray intersection maxDistance := rfl
    have hn : n = Vec3.normalize g (res.2.sub sph.position) := rfl
    have hinv : ∀ v : Vec3 ℝ, 0 ≤ 1 / g.sqrt (Vec3.dot v v) := fun v =>
      one_div_nonneg.2 (Real.sqrt_nonneg _)
    rcases sphere_hit_cases pow v0 sph ray intersection maxDistance with
      h | ⟨q, hq0, -, h | h⟩
    · have h0 : res.1 = 0 := h
      refine ⟨Or.inr (Or.inl h0), ?_, ?_, ?_⟩
      · intro hpos; rw [h0] at hpos; exact absurd hpos (lt_irrefl _)
      · intro hneg; rw [h0] at hneg; exact absurd hneg (lt_irrefl _)
      · intro pl hpl; exact Geometry.noConfusion hpl
    · have hr : res = (1, ray.position.add (ray.normal.muls
          (Vec3.dot (sph.position.sub ray.position) ray.normal - q))) := h
      refine ⟨Or.inr (Or.inr (by rw [hr])), ?_, ?_, ?_⟩
      · intro _
        rw [hn, dot_normalize_left, hr]
        simp only []
        rw [dot_hit_sub_center _ _ _ _ hD]
        exact mul_nonpos_of_nonpos_of_nonneg (by linarith) (hinv _)
      · intro hneg
        rw [hr] at hneg
        simp only [] at hneg
        linarith
      · intro pl hpl; exact Geometry.noConfusion hpl
    · have hr : res = (-1, ray.position.add (ray.normal.muls
          (Vec3.dot (sph.position.sub ray.position) ray.normal + q))) := h
      refine ⟨Or.inl (by rw [hr]), ?_, ?_, ?_⟩
      · intro hpos
        rw [hr] at hpos
        simp only [] at hpos
        linarith
      · intro _
        rw [hn, dot_normalize_left, hr]
        simp only []
        rw [dot_hit_sub_center _ _ _ _ hD]
        exact mul_nonneg (by linarith) (hinv _)
      · intro pl hpl; exact Geometry.noConfusion hpl
  | plane pl =>
    have hres : res = pl.intersectRay ray intersection maxDistance := rfl
    have hn : n = pl.normal := rfl
    rw [hn]
    rcases plane_result_cases pl ray intersection maxDistance with
      h | ⟨h, ha⟩ | ⟨h, ha⟩
    · have h0 : res.1 = 0 := h
      have e1 : ¬ (0 < res.1) := by rw [h0]; exact lt_irrefl _
      have e2 : ¬ (res.1 < 0) := by rw [h0]; exact lt_irrefl _
      exact ⟨Or.inr (Or.inl h0), fun h => absurd h e1, fun h => absurd h e2,
        fun _ _ => ⟨fun h => absurd h e1, fun h => absurd h e2⟩⟩
    · have h0 : res.1 = -1 := h
      have e1 : ¬ (0 < res.1) := by rw [h0]; norm_num
      exact ⟨Or.inl h0, fun h => absurd h e1, fun _ => le_of_lt ha,
        fun _ _ => ⟨fun h => absurd h e1, fun _ => ha⟩⟩
    · have h0 : res.1 = 1 := h
      have e2 : ¬ (res.1 < 0) := by rw [h0]; norm_num
      exact ⟨Or.inr (Or.inr h0), fun _ => le_of_lt ha, fun h => absurd h e2,
        fun _ _ => ⟨fun _ => ha, fun h => absurd h e2⟩⟩

/-- C6: over the reals, for a sphere with centre `C` and radius `r > 0` and a
ray with unit direction, a hit reported by `Sphere::intersectRay` at the point
`P` lies on the surface (`|P - C| = r`, so the vector to normalise is not zero),
and `getNormal(P)` has length 1 and equals `(P - C) / r`. -/
theorem sphere_getNormal_unit_outward (pow : ℝ → ℝ → ℝ) (v0 : Vec3 ℝ)
    (sph : Sphere ℝ) (ray : Ray ℝ) (intersection : Vec3 ℝ) (maxDistance : ℝ)
    (hr : 0 < sph.radius) (hD : Vec3.dot ray.normal ray.normal = 1) :
    let g : Glm ℝ := ⟨Real.sqrt, pow, v0⟩
    let res := sph.intersectRay g ray intersection maxDistance
    res.1 ≠ 0 →
      Vec3.length g (res.2.sub sph.position) = sph.radius ∧
      g.sqrt (Vec3.dot (res.2.sub sph.position) (res.2.sub sph.position)) ≠ 0 ∧
      Vec3.length g (sph.getNormal g res.2) = 1 ∧
      sph.getNormal g res.2 = (res.2.sub sph.position).divs sph.radius := by
  intro g res hne
  have hdot : Vec3.dot (res.2.sub sph.position) (res.2.sub sph.position)
      = sph.radius * sph.radius := by
    rcases sphere_hit_cases pow v0 sph ray intersection maxDistance with
      h | ⟨q, -, hq, h | h⟩
    · exact absurd h hne
    · have hr' : res = (1, ray.position.add (ray.normal.muls
          (Vec3.dot (sph.position.sub ray.position) ray.normal - q))) := h
      rw [hr']
      exact sphere_hit_dot_self _ _ _ _ q _ hD hq (Or.inl rfl)
    · have hr' : res = (-1, ray.position.add (ray.normal.muls
          (Vec3.dot (sph.position.sub ray.position) ray.normal + q))) := h
      rw [hr']
      exact sphere_hit_dot_self _ _ _ _ q _ hD hq (Or.inr rfl)
  have hlen : g.sqrt (Vec3.dot (res.2.sub sph.position)
      (res.2.sub sph.position)) = sph.radius := by
    rw [hdot]
    exact Real.sqrt_mul_self hr.le
  have hnormal : sph.getNormal g res.2
      = (res.2.sub sph.position).divs sph.radius := by
    unfold Sphere.getNormal Vec3.normalize
    rw [hlen]
    simp only [Vec3.muls, Vec3.divs, mul_one_div]
  refine ⟨hlen, ?_, ?_, hnormal⟩
  · rw [hlen]; exact hr.ne'
  · rw [hnormal]
    unfold Vec3.length
    have hne' : sph.radius ≠ 0 := hr.ne'
    have : Vec3.dot ((res.2.sub sph.position).divs sph.radius)
        ((res.2.sub sph.position).divs sph.radius) = 1 := by
      have h2 : Vec3.dot ((res.2.sub sph.position).divs sph.radius)
          ((res.2.sub sph.position).divs sph.radius) =
          Vec3.dot (res.2.sub sph.position) (res.2.sub sph.position)
            / (sph.radius * sph.radius) := by
        simp only [Vec3.dot, Vec3.divs]
        field_simp
      rw [h2, hdot]
      exact div_self (mul_ne_zero hne' hne')
    rw [this]
    exact Real.sqrt_one

section Termination

variable {F : Type} [LinearOrderedField F]

theorem shadeLit_some (g : Glm F) (scene : Scene F)
    (self : Ray F → Vec3 F → Nat → Option (Traced F))
    (ray : Ray F) (color : Vec3 F) (depth : Nat)
    (material : Material F) (result : F)
    (intersection light_direction intersection_normal : Vec3 F) (tests : Nat)
    (hself : ∀ r c, ∃ t, self r c (sizeAdd depth 1) = some t) :
    ∃ t, shadeLit g scene self ray color depth material result intersection
      light_direction intersection_normal tests = some t := by
  unfold shadeLit
  simp only []
  by_cases h1 : result > 0
  · rw [if_pos h1]
    by_cases h2 : material.reflection_factor > 0
    · rw [if_pos h2]
      obtain ⟨t, ht⟩ := hself
        ⟨intersection.add ((ray.normal.sub
            (Vec3.smul (2 * Vec3.dot ray.normal intersection_normal)
              intersection_normal)).muls reflection_epsilon),
          ray.normal.sub
            (Vec3.smul (2 * Vec3.dot ray.normal intersection_normal)
              intersection_normal)⟩ g.vec3_default
      rw [ht]
      exact ⟨_, rfl⟩
    · rw [if_neg h2]
      exact ⟨_, rfl⟩
  · rw [if_neg h1]
    exact ⟨_, rfl⟩

theorem shadeRefraction_some (g : Glm F)
    (self : Ray F → Vec3 F → Nat → Option (Traced F))
    (ray : Ray F) (depth : Nat) (material : Material F) (result : F)
    (intersection intersection_normal : Vec3 F) (acc : Traced F)
    (hself : ∀ r c, ∃ t, self r c (sizeAdd depth 1) = some t) :
    ∃ t, shadeRefraction g self ray depth material result intersection
      intersection_normal acc = some t := by
  unfold shadeRefraction
  simp only []
  by_cases h1 : material.refraction_factor > 0
  · rw [if_pos h1]
    split_ifs with h2
    · obtain ⟨t, ht⟩ := hself
        ⟨intersection.add (((Vec3.smul
            (space_refraction_index / material.refraction_index)
            ray.normal).add
          (Vec3.smul (space_refraction_index / material.refraction_index *
              -Vec3.dot (intersection_normal.muls result) ray.normal -
            g.sqrt (1 - space_refraction_index / material.refraction_index *
              (space_refraction_index / material.refraction_index) *
              (1 - -Vec3.dot (intersection_normal.muls result) ray.normal *
                -Vec3.dot (intersection_normal.muls result) ray.normal)))
            (intersection_normal.muls result))).muls reflection_epsilon),
          (Vec3.smul (space_refraction_index / material.refraction_index)
            ray.normal).add
          (Vec3.smul (space_refraction_index / material.refraction_index *
              -Vec3.dot (intersection_normal.muls result) ray.normal -
            g.sqrt (1 - space_refraction_index / material.refraction_index *
              (space_refraction_index / material.refraction_index) *
              (1 - -Vec3.dot (intersection_normal.muls result) ray.normal *
                -Vec3.dot (intersection_normal.muls result) ray.normal)))
            (intersection_normal.muls result))⟩ g.vec3_default
      rw [ht]
      exact ⟨_, rfl⟩
    · exact ⟨_, rfl⟩
  · rw [if_neg h1]
    exact ⟨_, rfl⟩

theorem shadeHit_some (g : Glm F) (scene : Scene F)
    (self : Ray F → Vec3 F → Nat → Option (Traced F))
    (ray : Ray F) (color : Vec3 F) (depth : Nat)
    (geometry : Geometry F) (result : F) (intersection : Vec3 F) (tests : Nat)
    (hself : ∀ r c, ∃ t, self r c (sizeAdd depth 1) = some t) :
    ∃ t, shadeHit g scene self ray color depth geometry result intersection
      tests = some t := by
  unfold shadeHit
  simp only []
  obtain ⟨acc, hacc⟩ := shadeLit_some g scene self ray color depth
    geometry.getMaterial result intersection
    (Vec3.normalize g (scene.point_light.position.sub intersection))
    (geometry.getNormal g intersection) tests hself
  rw [hacc]
  exact shadeRefraction_some g self ray depth _ result intersection _ acc hself

theorem scanLoop_some (g : Glm F) (scene : Scene F)
    (self : Ray F → Vec3 F → Nat → Option (Traced F))
    (ray : Ray F) (color : Vec3 F) (depth : Nat)
    (hself : ∀ r c, ∃ t, self r c (sizeAdd depth 1) = some t) :
    ∀ (l : List (Geometry F)) (intersection : Vec3 F) (tests : Nat),
      ∃ t, scanLoop g scene self ray color depth l intersection tests
        = some t := by
  intro l
  induction l with
  | nil => intro _ tests; exact ⟨_, rfl⟩
  | cons geometry rest ih =>
    intro intersection tests
    rw [scanLoop]
    split_ifs with h
    · exact shadeHit_some g scene self ray color depth geometry _ _ _ hself
    · exact ih _ _

theorem raytrace_some (g : Glm F) (scene : Scene F) (max_depth : Nat)
    (hmax : max_depth + 1 < SIZE_MOD) :
    ∀ (fuel depth : Nat), max_depth + 1 ≤ fuel + depth →
      ∀ (ray : Ray F) (color : Vec3 F),
        ∃ t, raytrace g scene max_depth (fuel + 1) ray color depth = some t := by
  intro fuel
  induction fuel with
  | zero =>
    intro depth hd ray color
    rw [raytrace, if_pos (by omega)]
    exact ⟨_, rfl⟩
  | succ fuel ih =>
    intro depth hd ray color
    rw [raytrace]
    by_cases hgt : depth > max_depth
    · rw [if_pos hgt]; exact ⟨_, rfl⟩
    · rw [if_neg hgt]
      apply scanLoop_some
      intro r c
      rw [sizeAdd_eq (by omega)]
      exact ih (depth + 1) (by omega) r c

theorem shadeLit_mono (g : Glm F) (scene : Scene F)
    (self self' : Ray F → Vec3 F → Nat → Option (Traced F))
    (hmono : ∀ r c d t, self r c d = some t → self' r c d = some t)
    (ray : Ray F) (color : Vec3 F) (depth : Nat)
    (material : Material F) (result : F)
    (intersection light_direction intersection_normal : Vec3 F) (tests : Nat)
    (t : Traced F)
    (h : shadeLit g scene self ray color depth material result intersection
      light_direction intersection_normal tests = some t) :
    shadeLit g scene self' ray color depth material result intersection
      light_direction intersection_normal tests = some t := by
  unfold shadeLit at h ⊢
  dsimp only at h ⊢
  by_cases h1 : result > 0
  · rw [if_pos h1] at h ⊢
    by_cases h2 : material.reflection_factor > 0
    · rw [if_pos h2] at h ⊢
      split at h
      · exact Option.noConfusion h
      · rename_i r hr
        rw [hmono _ _ _ _ hr]
        exact h
    · rw [if_neg h2] at h ⊢
      exact h
  · rw [if_neg h1] at h ⊢
    exact h

theorem shadeRefraction_mono (g : Glm F)
    (self self' : Ray F → Vec3 F → Nat → Option (Traced F))
    (hmono : ∀ r c d t, self r c d = some t → self' r c d = some t)
    (ray : Ray F) (depth : Nat) (material : Material F) (result : F)
    (intersection intersection_normal : Vec3 F) (acc t : Traced F)
    (h : shadeRefraction g self ray depth material result intersection
      intersection_normal acc = some t) :
    shadeRefraction g self' ray depth material result intersection
      intersection_normal acc = some t := by
  unfold shadeRefraction at h ⊢
  dsimp only at h ⊢
  by_cases h1 : material.refraction_factor > 0
  · rw [if_pos h1] at h ⊢
    split_ifs at h ⊢ with h2
    · split at h
      · exact Option.noConfusion h
      · rename_i r hr
        rw [hmono _ _ _ _ hr]
        exact h
    · exact h
  · rw [if_neg h1] at h ⊢
    exact h

theorem scanLoop_mono (g : Glm F) (scene : Scene F)
    (self self' : Ray F → Vec3 F → Nat → Option (Traced F))
    (hmono : ∀ r c d t, self r c d = some t → self' r c d = some t)
    (ray : Ray F) (color : Vec3 F) (depth : Nat) (t : Traced F) :
    ∀ (l : List (Geometry F)) (intersection : Vec3 F) (tests : Nat),
      scanLoop g scene self ray color depth l intersection tests = some t →
      scanLoop g scene self' ray color depth l intersection tests = some t := by
  intro l
  induction l with
  | nil => intro _ _ h; exact h
  | cons geometry rest ih =>
    intro intersection tests h
    rw [scanLoop] at h ⊢
    split_ifs at h ⊢ with hhit
    · unfold shadeHit at h ⊢
      dsimp only at h ⊢
      split at h
      · exact Option.noConfusion h
      · rename_i acc hacc
        rw [shadeLit_mono g scene self self' hmono _ _ _ _ _ _ _ _ _ _ hacc]
        exact shadeRefraction_mono g self self' hmono _ _ _ _ _ _ _ _ h
    · exact ih _ _ h

/-- More fuel does not change a result. -/
theorem raytrace_fuel_mono (g : Glm F) (scene : Scene F) (max_depth : Nat) :
    ∀ (fuel : Nat) (ray : Ray F) (color : Vec3 F) (depth : Nat) (t : Traced F),
      raytrace g scene max_depth fuel ray color depth = some t →
      raytrace g scene max_depth (fuel + 1) ray color depth = some t := by
  intro fuel
  induction fuel with
  | zero =>
    intro ray color depth t h
    rw [raytrace] at h
    exact Option.noConfusion h
  | succ fuel ih =>
    intro ray color depth t h
    rw [raytrace] at h ⊢
    split_ifs at h ⊢ with hd
    · exact h
    · exact scanLoop_mono g scene _ _ ih ray color depth t _ _ _ h

theorem raytrace_fuel_le (g : Glm F) (scene : Scene F) (max_depth : Nat)
    (ray : Ray F) (color : Vec3 F) (depth : Nat) (t : Traced F) (fuel : Nat)
    (h : raytrace g scene max_depth fuel ray color depth = some t) :
    ∀ fuel', fuel ≤ fuel' →
      raytrace g scene max_depth fuel' ray color depth = some t := by
  intro fuel' hle
  induction fuel' with
  | zero =>
    have : fuel = 0 := by omega
    rw [this] at h
    exact h
  | succ n ih =>
    by_cases hn : fuel ≤ n
    · exact raytrace_fuel_mono g scene max_depth n ray color depth t (ih hn)
    · have : fuel = n + 1 := by omega
      rw [this] at h
      exact h

end Termination

theorem intToSize_of_nonneg {z : Int} (h0 : 0 ≤ z) (h1 : z < 2147483648) :
    (intToSize z : Int) = z ∧ intToSize z + 1 < SIZE_MOD := by
  unfold intToSize
  have hmod : z % (2 ^ 64 : Int) = z := by
    norm_num
    omega
  rw [hmod, SIZE_MOD_eq]
  omega

/-- C7: for every scene, ray and colour and every recursion limit
`max_depth ≥ 0` (the `int` of `Application`, copied into the job as a
`size_t`): a call of `raytrace` at a depth above the limit, in particular at
`max_depth + 1`, returns with `color` exactly as passed in, having made no
intersection test and no recursive call; every recursive call is made at
`depth + 1`, so `raytrace` from depth 0 returns for every scene: a nesting of
`max_depth + 2` calls is enough, and every larger bound gives the same
result. -/
theorem raytrace_stops_past_max_depth {F : Type} [LinearOrderedField F]
    (g : Glm F) (scene : Scene F) (max_depth : Int) (ray : Ray F)
    (color : Vec3 F) (h0 : 0 ≤ max_depth) (h1 : max_depth < 2 ^ 31) :
    (∀ fuel : Nat,
      raytrace g scene (intToSize max_depth) (fuel + 1) ray color
        (intToSize max_depth + 1) = some ⟨color, 0, 0⟩) ∧
    (∀ depth fuel : Nat, intToSize max_depth < depth →
      raytrace g scene (intToSize max_depth) (fuel + 1) ray color depth
        = some ⟨color, 0, 0⟩) ∧
    (∃ t, ∀ fuel : Nat, intToSize max_depth + 2 ≤ fuel →
      raytrace g scene (intToSize max_depth) fuel ray color 0 = some t) := by
  have hmax := (intToSize_of_nonneg h0 (by norm_num at h1; exact h1)).2
  refine ⟨?_, ?_, ?_⟩
  · intro fuel
    rw [raytrace, if_pos (Nat.lt_succ_self _)]
  · intro depth fuel hd
    rw [raytrace, if_pos hd]
  · obtain ⟨t, ht⟩ := raytrace_some g scene _ hmax
      (intToSize max_depth + 1) 0 (by omega) ray color
    exact ⟨t, fun fuel hfuel =>
      raytrace_fuel_le g scene _ ray color 0 t _ ht fuel hfuel⟩

section RedSphere

theorem redSphere_center_hit (g : Glm ℝ) (hg : g.sqrt = Real.sqrt) (sp ri : ℝ)
    (i0 : Vec3 ℝ) :
    (redSphere sp ri).intersectRay g ⟨⟨0, 0, 0⟩, ⟨0, 0, 1⟩⟩ i0 FLT_MAX
      = (1, ⟨0, 0, 4⟩) := by
  unfold Sphere.intersectRay redSphere FLT_MAX
  simp only [Vec3.dot, Vec3.sub, Vec3.add, Vec3.muls, hg]
  norm_num

theorem redSphere_normal_at_hit (g : Glm ℝ) (hg : g.sqrt = Real.sqrt)
    (sp ri : ℝ) :
    (Geometry.sphere (redSphere sp ri)).getNormal g ⟨0, 0, 4⟩ = ⟨0, 0, -1⟩ := by
  unfold Geometry.getNormal Sphere.getNormal Vec3.normalize redSphere
  simp only [Vec3.dot, Vec3.sub, Vec3.muls, hg]
  norm_num

theorem redSphere_no_shadow (g : Glm ℝ) (sp ri : ℝ) (ld i0 : Vec3 ℝ)
    (maxd : ℝ) (hz : ld.z < 0) :
    (redSphere sp ri).intersectRay g
      ⟨(⟨0, 0, 4⟩ : Vec3 ℝ).add (ld.muls reflection_epsilon), ld⟩ i0 maxd
      = (0, i0) := by
  unfold Sphere.intersectRay redSphere reflection_epsilon
  simp only [Vec3.dot, Vec3.sub, Vec3.add, Vec3.muls]
  rw [if_pos]
  constructor
  · nlinarith [sq_nonneg ld.x, sq_nonneg ld.y, sq_nonneg ld.z]
  · nlinarith [sq_nonneg ld.x, sq_nonneg ld.y, sq_nonneg ld.z]

theorem light_direction_z_neg (g : Glm ℝ) (hg : g.sqrt = Real.sqrt)
    (L : Vec3 ℝ) (hL : L.z < 4) :
    (Vec3.normalize g (L.sub ⟨0, 0, 4⟩)).z < 0 := by
  unfold Vec3.normalize
  simp only [Vec3.dot, Vec3.sub, Vec3.muls, hg]
  have hpos : 0 < (L.x - 0) * (L.x - 0) + (L.y - 0) * (L.y - 0)
      + (L.z - 4) * (L.z - 4) := by
    nlinarith [sq_nonneg L.x, sq_nonneg L.y, mul_pos (sub_pos.2 hL) (sub_pos.2 hL)]
  have hk : 0 < 1 / Real.sqrt ((L.x - 0) * (L.x - 0) + (L.y - 0) * (L.y - 0)
      + (L.z - 4) * (L.z - 4)) := one_div_pos.2 (Real.sqrt_pos.2 hpos)
  exact mul_neg_of_neg_of_pos (by linarith) hk

theorem clamp_pos {x : ℝ} (hx : 0 < x) : 0 < clamp x 0 1 := by
  unfold clamp
  exact lt_min (lt_max_of_lt_left hx) one_pos

theorem pi_pos : (0 : ℝ) < pi := by
  unfold pi
  norm_num

/-- Shading the central ray of the red sphere scene: the sphere is hit, the
shadow test finds no occluder, and only the red channel receives light. -/
theorem redSphere_raytrace (g : Glm ℝ) (hg : g.sqrt = Real.sqrt)
    (light : PointLight ℝ) (sp ri : ℝ) (max_depth fuel : Nat)
    (hL : light.position.z < 4) (hred : 0 < light.color.x) :
    ∃ t, raytrace g (redSphereScene light sp ri) max_depth (fuel + 1)
        ⟨⟨0, 0, 0⟩, ⟨0, 0, 1⟩⟩ ⟨0, 0, 0⟩ 0 = some t ∧
      0 < t.color.x ∧ t.color.y = 0 ∧ t.color.z = 0 ∧
      t.tests = 2 ∧ t.calls = 0 := by
  have hz := light_direction_z_neg g hg light.position hL
  have hshadow := redSphere_no_shadow g sp ri
    (Vec3.normalize g (light.position.sub ⟨0, 0, 4⟩)) g.vec3_default
    (Vec3.length g (light.position.sub ⟨0, 0, 4⟩)) hz
  have hcl : 0 < clamp (Vec3.dot (Vec3.normalize g (light.position.sub ⟨0, 0, 4⟩))
      ⟨0, 0, -1⟩) 0 1 := by
    apply clamp_pos
    simp only [Vec3.dot]
    linarith
  have hm1 : (redSphere sp ri).material.reflection_factor = 0 := rfl
  have hm2 : (redSphere sp ri).material.refraction_factor = 0 := rfl
  have hm3 : (redSphere sp ri).material.diffuse_color = ⟨1, 0, 0⟩ := rfl
  have hm4 : (redSphere sp ri).material.specular_color = ⟨0, 0, 0⟩ := rfl
  rw [raytrace, if_neg (by omega)]
  simp only [redSphereScene, scanLoop, Geometry.intersectRay,
    redSphere_center_hit g hg]
  rw [if_pos (by norm_num)]
  unfold shadeHit
  simp only [redSphere_normal_at_hit g hg, Geometry.getMaterial]
  unfold shadeLit shadeRefraction
  simp only [shadowLoop, Geometry.intersectRay, hshadow, hm1, hm2, hm3, hm4,
    gt_iff_lt, zero_lt_one, lt_irrefl, if_true, if_false, ne_eq,
    not_true_eq_false, List.length_singleton]
  refine ⟨_, rfl, ?_, ?_, ?_, rfl, rfl⟩
  · simp only [Vec3.add, Vec3.mul, Vec3.muls, Vec3.divs, Vec3.smul]
    have : 0 < 1 / pi * light.color.x *
        clamp (Vec3.dot (Vec3.normalize g (light.position.sub ⟨0, 0, 4⟩))
          ⟨0, 0, -1⟩) 0 1 :=
      mul_pos (mul_pos (one_div_pos.2 pi_pos) hred) hcl
    linarith
  · simp only [Vec3.add, Vec3.mul, Vec3.muls, Vec3.divs, Vec3.smul]
    ring
  · simp only [Vec3.add, Vec3.mul, Vec3.muls, Vec3.divs, Vec3.smul]
    ring

theorem center_ray_direction (g : Glm ℝ) (hg : g.sqrt = Real.sqrt)
    (x y : Nat) (hx : 0 < x) (hy : 0 < y) :
    Vec3.normalize g
      ⟨(x : ℝ) / ((2 * x : Nat) : ℝ) - 0.5,
        ((1 - (y : ℝ) / ((2 * y : Nat) : ℝ)) - 0.5) *
          (((2 * y : Nat) : ℝ) / ((2 * x : Nat) : ℝ)),
        0.5⟩ = ⟨0, 0, 1⟩ := by
  have hx' : (x : ℝ) ≠ 0 := Nat.cast_ne_zero.2 (by omega)
  have hy' : (y : ℝ) ≠ 0 := Nat.cast_ne_zero.2 (by omega)
  have e1 : (x : ℝ) / ((2 * x : Nat) : ℝ) - 0.5 = 0 := by
    push_cast; field_simp; ring
  have e2 : ((1 - (y : ℝ) / ((2 * y : Nat) : ℝ)) - 0.5) *
      (((2 * y : Nat) : ℝ) / ((2 * x : Nat) : ℝ)) = 0 := by
    push_cast; field_simp; ring
  have e3 : Real.sqrt ((0.5 : ℝ) * 0.5) = 0.5 :=
    Real.sqrt_mul_self (by norm_num)
  rw [e1, e2]
  unfold Vec3.normalize
  simp only [Vec3.dot, Vec3.muls, hg, mul_zero, zero_mul, zero_add, e3]
  norm_num

/-- C8: over the reals, in the scene made of the sphere with centre `(0,0,5)`,
radius 1, diffuse colour `(1,0,0)`, zero specular colour and reflection and
refraction factors 0, with a point light in front of the sphere (`z < 4`, as
for the position `(0,10,-5)`) of positive red intensity, the camera at the
origin and any `max_depth`: for the central pixel `x = W/2`, `y = H/2`,
`CalculatePixel` casts the ray of direction `(0,0,1)`, that ray hits the sphere
(result `1` at `(0,0,4)`), the shadow loop leaves `shadow_factor = 1`, and the
colour returned has a strictly positive red channel and green and blue
channels equal to zero. -/
theorem center_pixel_is_pure_red (pow : ℝ → ℝ → ℝ) (v0 : Vec3 ℝ)
    (light : PointLight ℝ) (sp ri : ℝ) (job : Job ℝ) (fuel x y : Nat)
    (hcam : job.camera_position = ⟨0, 0, 0⟩) (hx : 0 < x) (hy : 0 < y)
    (hL : light.position.z < 4) (hred : 0 < light.color.x) :
    let g : Glm ℝ := ⟨Real.sqrt, pow, v0⟩
    let scene := redSphereScene light sp ri
    let direction : Vec3 ℝ := Vec3.normalize g
      ⟨(x : ℝ) / ((2 * x : Nat) : ℝ) - 0.5,
        ((1 - (y : ℝ) / ((2 * y : Nat) : ℝ)) - 0.5) *
          (((2 * y : Nat) : ℝ) / ((2 * x : Nat) : ℝ)),
        0.5⟩
    let light_direction :=
      Vec3.normalize g (light.position.sub ⟨0, 0, 4⟩)
    direction = ⟨0, 0, 1⟩ ∧
    (redSphere sp ri).intersectRay g ⟨⟨0, 0, 0⟩, direction⟩ v0 FLT_MAX
      = (1, ⟨0, 0, 4⟩) ∧
    shadowLoop g
      ⟨(⟨0, 0, 4⟩ : Vec3 ℝ).add (light_direction.muls reflection_epsilon),
        light_direction⟩
      (Vec3.length g (light.position.sub ⟨0, 0, 4⟩))
      scene.geometry_list v0 1 = 1 ∧
    ∃ t, CalculatePixel g scene (2 * x) (2 * y) job (fuel + 1) x y ⟨0, 0, 0⟩
        = some t ∧
      0 < t.color.x ∧ t.color.y = 0 ∧ t.color.z = 0 := by
  intro g scene direction light_direction
  have hg : g.sqrt = Real.sqrt := rfl
  have hdir : direction = ⟨0, 0, 1⟩ := center_ray_direction g hg x y hx hy
  refine ⟨hdir, ?_, ?_, ?_⟩
  · rw [hdir]
    exact redSphere_center_hit g hg sp ri v0
  · have hz := light_direction_z_neg g hg light.position hL
    have hshadow := redSphere_no_shadow g sp ri light_direction v0
      (Vec3.length g (light.position.sub ⟨0, 0, 4⟩)) hz
    show shadowLoop g _ _ [Geometry.sphere (redSphere sp ri)] v0 1 = 1
    simp only [shadowLoop, Geometry.intersectRay, hshadow, ne_eq,
      not_true_eq_false, if_false]
  · obtain ⟨t, ht, h1, h2, h3, -, -⟩ :=
      redSphere_raytrace g hg light sp ri job.max_depth fuel hL hred
    refine ⟨t, ?_, h1, h2, h3⟩
    unfold CalculatePixel
    simp only [hcam]
    rw [center_ray_direction g hg x y hx hy]
    exact ht

end RedSphere

section Pool

variable {F : Type}

end Pool

section KeyEvents

variable {F : Type}

end KeyEvents

section Concurrency

variable {F : Type}

end Concurrency

/-! ## The theorems at concrete inputs -/

theorem assignJobs_row_ranges_tile_witness :
    (1 ≤ sampleApp.threads ∧ sampleApp.threads < SIZE_MOD ∧
      sampleApp.height < SIZE_MOD ∧
      sampleApp.workers.length = sampleApp.threads) ∧
    ∃ app', assignJobs sampleApp = some app' ∧
      ∀ y, y < 10 ↔ ∃ j ∈ app'.workers.map Worker.current_job, j.hasRow y :=
  have h1 : 1 ≤ sampleApp.threads := by decide
  have h2 : sampleApp.threads < SIZE_MOD := by
    show 3 < SIZE_MOD; rw [SIZE_MOD_eq]; omega
  have h3 : sampleApp.height < SIZE_MOD := by
    show 10 < SIZE_MOD; rw [SIZE_MOD_eq]; omega
  have h4 : sampleApp.workers.length = sampleApp.threads := rfl
  ⟨⟨h1, h2, h3, h4⟩,
    (assignJobs_row_ranges_tile sampleApp h1 h2 h3 h4).imp
      (fun _ h => ⟨h.1, h.2.2.2.2.2.2.2.1⟩)⟩

theorem worker_writes_in_own_rows_witness :
    (1 ≤ 4 ∧ 1 ≤ sampleApp.threads ∧ sampleApp.threads < SIZE_MOD ∧
      3 * 4 * sampleApp.height < SIZE_MOD ∧
      sampleApp.workers.length = sampleApp.threads) ∧
    ∃ app', assignJobs sampleApp = some app' ∧
      ∀ (i k : Nat) (a b : Worker ℚ), i ≠ k →
        app'.workers[i]? = some a → app'.workers[k]? = some b →
        ∀ x y c x' y' c' : Nat, visits 4 a.current_job x y → c < 3 →
          visits 4 b.current_job x' y' → c' < 3 →
          pixelIndex 4 x y c ≠ pixelIndex 4 x' y' c' :=
  have h0 : 1 ≤ 4 := by decide
  have h1 : 1 ≤ sampleApp.threads := by decide
  have h2 : sampleApp.threads < SIZE_MOD := by
    show 3 < SIZE_MOD; rw [SIZE_MOD_eq]; omega
  have h3 : 3 * 4 * sampleApp.height < SIZE_MOD := by
    show 3 * 4 * 10 < SIZE_MOD; rw [SIZE_MOD_eq]; omega
  have h4 : sampleApp.workers.length = sampleApp.threads := rfl
  ⟨⟨h0, h1, h2, h3, h4⟩,
    (worker_writes_in_own_rows sampleApp 4 h0 h1 h2 h3 h4).imp
      (fun _ h => ⟨h.1, h.2.2⟩)⟩

theorem intersectRay_sign_matches_normal_witness :
    Vec3.dot (⟨0, 0, 1⟩ : Vec3 ℝ) ⟨0, 0, 1⟩ = 1 ∧
    ((Geometry.sphere (redSphere 1 1)).intersectRay
        ⟨Real.sqrt, fun x _ => x, ⟨0, 0, 0⟩⟩ ⟨⟨0, 0, 0⟩, ⟨0, 0, 1⟩⟩ ⟨0, 0, 0⟩
        FLT_MAX).1 = 1 ∧
    Vec3.dot ((Geometry.sphere (redSphere 1 1)).getNormal
        ⟨Real.sqrt, fun x _ => x, ⟨0, 0, 0⟩⟩
        ((Geometry.sphere (redSphere 1 1)).intersectRay
          ⟨Real.sqrt, fun x _ => x, ⟨0, 0, 0⟩⟩ ⟨⟨0, 0, 0⟩, ⟨0, 0, 1⟩⟩ ⟨0, 0, 0⟩
          FLT_MAX).2)
      ⟨0, 0, 1⟩ ≤ 0 :=
  have hD : Vec3.dot (⟨0, 0, 1⟩ : Vec3 ℝ) ⟨0, 0, 1⟩ = 1 := by
    norm_num [Vec3.dot]
  have hhit : ((Geometry.sphere (redSphere 1 1)).intersectRay
      ⟨Real.sqrt, fun x _ => x, ⟨0, 0, 0⟩⟩ ⟨⟨0, 0, 0⟩, ⟨0, 0, 1⟩⟩ ⟨0, 0, 0⟩
      FLT_MAX).1 = (1 : ℝ) := by
    show ((redSphere 1 1).intersectRay _ _ _ _).1 = (1 : ℝ)
    rw [redSphere_center_hit _ rfl]
  ⟨hD, hhit,
    (intersectRay_sign_matches_normal (fun x _ => x) ⟨0, 0, 0⟩
      (Geometry.sphere (redSphere 1 1)) ⟨⟨0, 0, 0⟩, ⟨0, 0, 1⟩⟩ ⟨0, 0, 0⟩
      FLT_MAX hD).2.1 (by rw [hhit]; norm_num)⟩

theorem sphere_getNormal_unit_outward_witness :
    0 < (redSphere (1 : ℝ) 1).radius ∧
    Vec3.dot (⟨0, 0, 1⟩ : Vec3 ℝ) ⟨0, 0, 1⟩ = 1 ∧
    Vec3.length ⟨Real.sqrt, fun x _ => x, ⟨0, 0, 0⟩⟩
      (((redSphere (1 : ℝ) 1).intersectRay
        ⟨Real.sqrt, fun x _ => x, ⟨0, 0, 0⟩⟩ ⟨⟨0, 0, 0⟩, ⟨0, 0, 1⟩⟩ ⟨0, 0, 0⟩
        FLT_MAX).2.sub (redSphere (1 : ℝ) 1).position)
      = (redSphere (1 : ℝ) 1).radius :=
  have hr : 0 < (redSphere (1 : ℝ) 1).radius := by
    show (0 : ℝ) < 1; norm_num
  have hD : Vec3.dot (⟨0, 0, 1⟩ : Vec3 ℝ) ⟨0, 0, 1⟩ = 1 := by
    norm_num [Vec3.dot]
  ⟨hr, hD,
    (sphere_getNormal_unit_outward (fun x _ => x) ⟨0, 0, 0⟩ (redSphere 1 1)
      ⟨⟨0, 0, 0⟩, ⟨0, 0, 1⟩⟩ ⟨0, 0, 0⟩ FLT_MAX hr hD
      (by rw [redSphere_center_hit _ rfl]; norm_num)).1⟩

theorem raytrace_stops_past_max_depth_witness :
    ((0 : Int) ≤ 7 ∧ (7 : Int) < 2 ^ 31) ∧
    raytrace sampleGlm (redSphereScene ⟨⟨0, 10, -5⟩, ⟨1, 1, 1⟩⟩ 1 1)
      (intToSize 7) 1 ⟨⟨0, 0, 0⟩, ⟨0, 0, 1⟩⟩ ⟨0, 0, 0⟩ (intToSize 7 + 1)
      = some ⟨⟨0, 0, 0⟩, 0, 0⟩ :=
  have h0 : (0 : Int) ≤ 7 := by norm_num
  have h1 : (7 : Int) < 2 ^ 31 := by norm_num
  ⟨⟨h0, h1⟩,
    (raytrace_stops_past_max_depth sampleGlm
      (redSphereScene ⟨⟨0, 10, -5⟩, ⟨1, 1, 1⟩⟩ 1 1) 7
      ⟨⟨0, 0, 0⟩, ⟨0, 0, 1⟩⟩ ⟨0, 0, 0⟩ h0 h1).1 0⟩

theorem center_pixel_is_pure_red_witness :
    ((0 : Nat) < 400 ∧ (0 : Nat) < 300 ∧ (-5 : ℝ) < 4 ∧ (0 : ℝ) < 9 / 10) ∧
    ∃ t, CalculatePixel ⟨Real.sqrt, fun x _ => x, ⟨0, 0, 0⟩⟩
        (redSphereScene ⟨⟨0, 10, -5⟩, ⟨9 / 10, 6 / 10, 3 / 10⟩⟩ 1 1)
        (2 * 400) (2 * 300) ⟨0, 300, 7, ⟨0, 0, 0⟩⟩ 1 400 300 ⟨0, 0, 0⟩
        = some t ∧
      0 < t.color.x ∧ t.color.y = 0 ∧ t.color.z = 0 :=
  have hx : (0 : Nat) < 400 := by decide
  have hy : (0 : Nat) < 300 := by decide
  have hL : (-5 : ℝ) < 4 := by norm_num
  have hred : (0 : ℝ) < 9 / 10 := by norm_num
  ⟨⟨hx, hy, hL, hred⟩,
    (center_pixel_is_pure_red (fun x _ => x) ⟨0, 0, 0⟩
      ⟨⟨0, 10, -5⟩, ⟨9 / 10, 6 / 10, 3 / 10⟩⟩ 1 1 ⟨0, 300, 7, ⟨0, 0, 0⟩⟩ 0
      400 300 rfl hx hy hL hred).2.2.2⟩

end Raytracer
